import Mathlib

/-!
# imagekit-go, package `metadata`: request construction and response decoding

A shallow embedding of `api/metadata/metadata.go` (`API.get`, `API.FromAsset`,
`API.FromUrl`, the `Metadata` and `Schema` data model) together with the parts
of the Go standard library the code calls (`net/url`, `net/http.NewRequest`,
`(*Request).SetBasicAuth` with `encoding/base64`, `encoding/json.Unmarshal`,
`strconv`), followed by the theorems that settle the specification claims C1 to
C10.

Conventions of the embedding:

* a Go `string` or `[]byte` is a list of bytes; a Go `error` is a value of
  `GoError`, the nil error is `none`; a nil pointer or nil slice is `none`;
* Go `int` is 64 bits wide; a `float32` or `float64` is the exact binary
  fraction it stands for (the sign of zero is kept, infinities and NaN do not
  arise from JSON);
* a call is a pure function of its inputs and of the transport, and returns its
  results together with the events a caller can observe (the requests handed to
  the transport, the error parse, the decoding, the deferred close);
* the standard library is the one of Go 1.19 and later (`URL.OmitHost`,
  `strings.Cut`); the caller's `context.Context` is not nil;
* package `api` and package `config` of the repository are not part of the
  source at hand: `api.BuildPath`, `Response.ParseError` and the RFC 3339 parser
  of `time` are parameters of the embedding (`Extern`), `api.SetResponseMeta` is
  modelled from the specification.
-/

namespace Imagekit

/-! ## Bytes and the `strings` helpers used by `net/url` -/

/-- A byte of a Go string. -/
abbrev Byte := Fin 256

/-- A Go `string` or `[]byte`. -/
abbrev Bytes := List Byte

/-- The byte of an ASCII character. -/
def ch (c : Char) : Byte := Fin.ofNat c.toNat

/-- The bytes of an ASCII string literal. -/
def str (s : String) : Bytes := s.toList.map ch

/-- Go `strings.Cut(s, sep)` for a one-byte separator: the text before the
first `sep`, the text after it, and whether `sep` was found. -/
def cut (sep : Byte) : Bytes → Bytes × Bytes × Bool
  | [] => ([], [], false)
  | c :: rest =>
    if c = sep then ([], rest, true)
    else
      let r := cut sep rest
      (c :: r.1, r.2.1, r.2.2)

/-- Go `strings.Index(s, pat)`: the first position at which `pat` occurs. -/
def indexSub (pat : Bytes) : Bytes → Option Nat
  | [] => if pat = [] then some 0 else none
  | c :: rest =>
    if pat.isPrefixOf (c :: rest) then some 0
    else (indexSub pat rest).map (· + 1)

/-- Go `strings.LastIndex(s, sep)` for a one-byte separator. -/
def lastIndexByte (sep : Byte) (s : Bytes) : Option Nat :=
  let rec go : Bytes → Nat → Option Nat → Option Nat
    | [], _, acc => acc
    | c :: rest, i, acc => go rest (i + 1) (if c = sep then some i else acc)
  go s 0 none

/-- Go `strings.ToLower` on ASCII text (schemes are ASCII). -/
def toLowerASCII (s : Bytes) : Bytes :=
  s.map fun c => if ch 'A' ≤ c ∧ c ≤ ch 'Z' then c + 32 else c

def isAlpha (c : Byte) : Bool :=
  (ch 'a' ≤ c && c ≤ ch 'z') || (ch 'A' ≤ c && c ≤ ch 'Z')

def isDigit (c : Byte) : Bool := ch '0' ≤ c && c ≤ ch '9'

/-! ## `net/url` -/

/-- The `encoding` modes of `net/url`. -/
inductive Encoding where
  | encodePath
  | encodePathSegment
  | encodeHost
  | encodeZone
  | encodeUserPassword
  | encodeQueryComponent
  | encodeFragment
  deriving DecidableEq, Repr

open Encoding

/-- The errors of `net/url`. -/
inductive URLError where
  | escape (s : Bytes)
  | invalidHost (s : Bytes)
  | controlCharacter
  | missingScheme
  | colonInFirstSegment
  | missingBracket
  | invalidPort (s : Bytes)
  | invalidUserinfo
  deriving DecidableEq, Repr

/-- Go `ishex`. -/
def ishex (c : Byte) : Bool :=
  isDigit c || (ch 'a' ≤ c && c ≤ ch 'f') || (ch 'A' ≤ c && c ≤ ch 'F')

/-- Go `unhex`. -/
def unhex (c : Byte) : Byte :=
  if isDigit c then c - ch '0'
  else if ch 'a' ≤ c ∧ c ≤ ch 'f' then c - ch 'a' + 10
  else if ch 'A' ≤ c ∧ c ≤ ch 'F' then c - ch 'A' + 10
  else 0

/-- Go `upperhex[i]`, the digit of `"0123456789ABCDEF"` for a nibble. -/
def upperhex (n : Byte) : Byte :=
  if n.val < 10 then ch '0' + n else ch 'A' + (n - 10)

/-- The byte `unhex(a)<<4 | unhex(b)` of an escape `%ab`. -/
def hexByte (a b : Byte) : Byte := Fin.ofNat ((unhex a).val * 16 % 256 ||| (unhex b).val)

/-- Go `shouldEscape`: whether the byte must be percent-escaped in the given
part of a URL. -/
def shouldEscape (c : Byte) (mode : Encoding) : Bool :=
  if isAlpha c || isDigit c then false
  else if (mode = encodeHost ∨ mode = encodeZone) ∧ c ∈ str "!$&\x27()*+,;=:[]<>\"" then false
  else if c ∈ str "-_.~" then false
  else if c ∈ str "$&+,/:;=?@" then
    match mode with
    | encodePath => c = ch '?'
    | encodePathSegment => c = ch '/' || c = ch ';' || c = ch ',' || c = ch '?'
    | encodeUserPassword => c = ch '@' || c = ch '/' || c = ch '?' || c = ch ':'
    | encodeQueryComponent => true
    | encodeFragment => false
    | _ => true
  else if mode = encodeFragment ∧ c ∈ str "!()*" then false
  else true

/-- Go `unescape`: undo percent-escapes (and `+` in a query component),
failing on a malformed escape or on a byte a host may not hold. -/
def unescape : Bytes → Encoding → Except URLError Bytes
  | [], _ => .ok []
  | c :: rest, mode =>
    if c = ch '%' then
      match rest with
      | h1 :: h2 :: rest2 =>
        if !(ishex h1 && ishex h2) then .error (.escape [c, h1, h2])
        else if mode = encodeHost ∧ (unhex h1).val < 8 ∧ [c, h1, h2] ≠ str "%25" then
          .error (.escape [c, h1, h2])
        else if mode = encodeZone ∧ [c, h1, h2] ≠ str "%25" ∧ hexByte h1 h2 ≠ ch ' '
            ∧ shouldEscape (hexByte h1 h2) encodeHost = true then
          .error (.escape [c, h1, h2])
        else
          match unescape rest2 mode with
          | .ok t => .ok (hexByte h1 h2 :: t)
          | .error e => .error e
      | _ => .error (.escape (c :: rest))
    else if c = ch '+' then
      match unescape rest mode with
      | .ok t => .ok ((if mode = encodeQueryComponent then ch ' ' else ch '+') :: t)
      | .error e => .error e
    else if (mode = encodeHost ∨ mode = encodeZone) ∧ c.val < 128
        ∧ shouldEscape c encodeHost = true then
      .error (.invalidHost [c])
    else
      match unescape rest mode with
      | .ok t => .ok (c :: t)
      | .error e => .error e

/-- One byte of Go `escape`. -/
def escapeByte (mode : Encoding) (c : Byte) : Bytes :=
  if c = ch ' ' ∧ mode = encodeQueryComponent then [ch '+']
  else if shouldEscape c mode then [ch '%', upperhex (c / 16), upperhex (c % 16)]
  else [c]

/-- Go `escape`: percent-escape every byte `shouldEscape` names, writing a space
of a query component as `+`. -/
def escape (s : Bytes) (mode : Encoding) : Bytes := s.flatMap (escapeByte mode)

/-- Go `url.QueryEscape`. -/
def QueryEscape (s : Bytes) : Bytes := escape s encodeQueryComponent

/-- Go `url.QueryUnescape`. -/
def QueryUnescape (s : Bytes) : Except URLError Bytes := unescape s encodeQueryComponent

deriving instance DecidableEq for Except

/-- Go `url.Userinfo`. -/
structure Userinfo where
  username : Bytes
  password : Bytes
  passwordSet : Bool
  deriving DecidableEq, Repr

/-- Go `url.URL`. -/
structure URL where
  Scheme : Bytes := []
  Opaque : Bytes := []
  User : Option Userinfo := none
  Host : Bytes := []
  Path : Bytes := []
  RawPath : Bytes := []
  OmitHost : Bool := false
  ForceQuery : Bool := false
  RawQuery : Bytes := []
  Fragment : Bytes := []
  RawFragment : Bytes := []
  deriving DecidableEq, Repr

/-- Go `stringContainsCTLByte`: an ASCII control byte occurs in the text. -/
def stringContainsCTLByte (s : Bytes) : Bool := s.any fun b => b < ch ' ' || b = 127

/-- The loop of Go `getScheme`; `pre` is `rawURL[:i]`. -/
def getSchemeLoop (rawURL : Bytes) : Bytes → Bytes → Except URLError (Bytes × Bytes)
  | _, [] => .ok ([], rawURL)
  | pre, c :: rest =>
    if isAlpha c then getSchemeLoop rawURL (pre ++ [c]) rest
    else if isDigit c || c = ch '+' || c = ch '-' || c = ch '.' then
      if pre = [] then .ok ([], rawURL) else getSchemeLoop rawURL (pre ++ [c]) rest
    else if c = ch ':' then
      if pre = [] then .error .missingScheme else .ok (pre, rest)
    else .ok ([], rawURL)

/-- Go `getScheme`: split a leading `scheme:` off the text. -/
def getScheme (rawURL : Bytes) : Except URLError (Bytes × Bytes) :=
  getSchemeLoop rawURL [] rawURL

/-- Go `validOptionalPort`. -/
def validOptionalPort : Bytes → Bool
  | [] => true
  | c :: rest => c = ch ':' && rest.all isDigit

/-- Go `validUserinfo`. -/
def validUserinfo (s : Bytes) : Bool :=
  s.all fun r => isAlpha r || isDigit r || r ∈ str "-._:~!$&\x27()*+,;=%@"

/-- Go `parseHost`. -/
def parseHost (host : Bytes) : Except URLError Bytes :=
  if (str "[").isPrefixOf host then
    match lastIndexByte (ch ']') host with
    | none => .error .missingBracket
    | some i =>
      let colonPort := host.drop (i + 1)
      if !validOptionalPort colonPort then .error (.invalidPort colonPort)
      else
        match indexSub (str "%25") (host.take i) with
        | some zone =>
          match unescape (host.take zone) encodeHost with
          | .error e => .error e
          | .ok host1 =>
            match unescape ((host.take i).drop zone) encodeZone with
            | .error e => .error e
            | .ok host2 =>
              match unescape (host.drop i) encodeHost with
              | .error e => .error e
              | .ok host3 => .ok (host1 ++ host2 ++ host3)
        | none => unescape host encodeHost
  else
    match lastIndexByte (ch ':') host with
    | some i =>
      let colonPort := host.drop i
      if !validOptionalPort colonPort then .error (.invalidPort colonPort)
      else unescape host encodeHost
    | none => unescape host encodeHost

/-- Go `parseAuthority`. -/
def parseAuthority (authority : Bytes) : Except URLError (Option Userinfo × Bytes) :=
  match lastIndexByte (ch '@') authority with
  | none =>
    match parseHost authority with
    | .error e => .error e
    | .ok host => .ok (none, host)
  | some i =>
    match parseHost (authority.drop (i + 1)) with
    | .error e => .error e
    | .ok host =>
      let userinfo := authority.take i
      if !validUserinfo userinfo then .error .invalidUserinfo
      else if ch ':' ∉ userinfo then
        match unescape userinfo encodeUserPassword with
        | .error e => .error e
        | .ok u => .ok (some ⟨u, [], false⟩, host)
      else
        let c := cut (ch ':') userinfo
        match unescape c.1 encodeUserPassword with
        | .error e => .error e
        | .ok username =>
          match unescape c.2.1 encodeUserPassword with
          | .error e => .error e
          | .ok password => .ok (some ⟨username, password, true⟩, host)

/-- Go `(*URL).setPath`. -/
def URL.setPath (u : URL) (p : Bytes) : Except URLError URL :=
  match unescape p encodePath with
  | .error e => .error e
  | .ok path =>
    .ok { u with Path := path, RawPath := if p = escape path encodePath then [] else p }

/-- Go `(*URL).setFragment`. -/
def URL.setFragment (u : URL) (f : Bytes) : Except URLError URL :=
  match unescape f encodeFragment with
  | .error e => .error e
  | .ok frag =>
    .ok { u with Fragment := frag, RawFragment := if f = escape frag encodeFragment then [] else f }

/-- The tail of Go `parse` (with `viaRequest` false) once scheme and query are
split off: opaque text, authority and path. -/
def parseRest (url : URL) (rest : Bytes) : Except URLError URL :=
  if !(str "/").isPrefixOf rest ∧ url.Scheme ≠ [] then
    .ok { url with Opaque := rest }
  else if !(str "/").isPrefixOf rest ∧ ch ':' ∈ (cut (ch '/') rest).1 then
    .error .colonInFirstSegment
  else if (url.Scheme ≠ [] ∨ !(str "///").isPrefixOf rest) ∧ (str "//").isPrefixOf rest then
    let authority0 := rest.drop 2
    let c := match indexSub (str "/") authority0 with
      | some i => (authority0.take i, authority0.drop i)
      | none => (authority0, [])
    match parseAuthority c.1 with
    | .error e => .error e
    | .ok (user, host) => URL.setPath { url with User := user, Host := host } c.2
  else if url.Scheme ≠ [] ∧ (str "/").isPrefixOf rest then
    URL.setPath { url with OmitHost := true } rest
  else
    URL.setPath url rest

/-- Go `parse(rawURL, false)`. -/
def parse (rawURL : Bytes) : Except URLError URL :=
  if stringContainsCTLByte rawURL then .error .controlCharacter
  else if rawURL = str "*" then .ok { Path := str "*" }
  else
    match getScheme rawURL with
    | .error e => .error e
    | .ok (scheme, rest) =>
      let url : URL := { Scheme := toLowerASCII scheme }
      if rest.getLast? = some (ch '?') ∧ rest.count (ch '?') = 1 then
        parseRest { url with ForceQuery := true } rest.dropLast
      else
        let c := cut (ch '?') rest
        parseRest { url with RawQuery := c.2.1 } c.1

/-- Go `url.Parse`: cut the fragment off, parse the rest, then set the
fragment.  An error comes with the text Go's `*url.Error` names in its `URL`
field: the text before the fragment when that text does not parse, the whole
text when the fragment does not unescape. -/
def Parse (rawURL : Bytes) : Except (Bytes × URLError) URL :=
  let c := cut (ch '#') rawURL
  match parse c.1 with
  | .error e => .error (c.1, e)
  | .ok url =>
    if c.2.1 = [] then .ok url
    else
      match url.setFragment c.2.1 with
      | .error e => .error (rawURL, e)
      | .ok u => .ok u

/-- Go `validEncoded`. -/
def validEncoded (s : Bytes) (mode : Encoding) : Bool :=
  s.all fun c => c ∈ str "!$&\x27()*+,;=:@[]%" || !shouldEscape c mode

/-- Go `(*URL).EscapedPath`. -/
def URL.EscapedPath (u : URL) : Bytes :=
  if u.RawPath ≠ [] ∧ validEncoded u.RawPath encodePath = true
      ∧ unescape u.RawPath encodePath = .ok u.Path then u.RawPath
  else if u.Path = str "*" then str "*"
  else escape u.Path encodePath

/-- Go `(*URL).EscapedFragment`. -/
def URL.EscapedFragment (u : URL) : Bytes :=
  if u.RawFragment ≠ [] ∧ validEncoded u.RawFragment encodeFragment = true
      ∧ unescape u.RawFragment encodeFragment = .ok u.Fragment then u.RawFragment
  else escape u.Fragment encodeFragment

/-- Go `(*Userinfo).String`. -/
def Userinfo.String (u : Userinfo) : Bytes :=
  escape u.username encodeUserPassword ++
    (if u.passwordSet then ch ':' :: escape u.password encodeUserPassword else [])

/-- The part of Go `(*URL).String` written when `Opaque` is empty: authority and
path, after the `scheme:` already in `buf`. -/
def URL.hierPart (u : URL) (buf : Bytes) : Bytes :=
  let buf1 :=
    if u.Scheme ≠ [] ∨ u.Host ≠ [] ∨ u.User ≠ none then
      if u.OmitHost ∧ u.Host = [] ∧ u.User = none then buf
      else
        buf ++ (if u.Host ≠ [] ∨ u.Path ≠ [] ∨ u.User ≠ none then str "//" else [])
          ++ (match u.User with
              | some ui => ui.String ++ str "@"
              | none => [])
          ++ (if u.Host ≠ [] then escape u.Host encodeHost else [])
    else buf
  let path := u.EscapedPath
  let buf2 := if path ≠ [] ∧ path.head? ≠ some (ch '/') ∧ u.Host ≠ [] then buf1 ++ str "/" else buf1
  let buf3 := if buf2 = [] ∧ ch ':' ∈ (cut (ch '/') path).1 then buf2 ++ str "./" else buf2
  buf3 ++ path

/-- Go `(*URL).String`. -/
def URL.String (u : URL) : Bytes :=
  let buf0 := if u.Scheme ≠ [] then u.Scheme ++ str ":" else []
  let buf := if u.Opaque ≠ [] then buf0 ++ u.Opaque else u.hierPart buf0
  let buf := if u.ForceQuery ∨ u.RawQuery ≠ [] then buf ++ str "?" ++ u.RawQuery else buf
  if u.Fragment ≠ [] then buf ++ str "#" ++ u.EscapedFragment else buf

/-! ## `net/url`: query strings -/

/-- Go `url.Values`, a `map[string][]string`: one entry per key. -/
abbrev Values := List (Bytes × List Bytes)

/-- The statement `m[key] = append(m[key], value)`. -/
def Values.Add : Values → Bytes → Bytes → Values
  | [], key, value => [(key, [value])]
  | (k, vs) :: rest, key, value =>
    if k = key then (k, vs ++ [value]) :: rest else (k, vs) :: Values.Add rest key value

/-- Go `Values.Set`: `v[key] = []string{value}`. -/
def Values.Set : Values → Bytes → Bytes → Values
  | [], key, value => [(key, [value])]
  | (k, vs) :: rest, key, value =>
    if k = key then (k, [value]) :: rest else (k, vs) :: Values.Set rest key value

/-- The pieces of a text between the occurrences of a separator byte. -/
def splitByte (sep : Byte) : Bytes → List Bytes
  | [] => [[]]
  | c :: rest =>
    if c = sep then [] :: splitByte sep rest
    else
      match splitByte sep rest with
      | [] => [[c]]
      | p :: ps => (c :: p) :: ps

/-- One turn of the loop of Go `parseQuery`, on the piece `key` cut off at `&`:
pieces that hold a semicolon, are empty or do not unescape are skipped. -/
def parseQueryStep (m : Values) (key : Bytes) : Values :=
  if ch ';' ∈ key then m
  else if key = [] then m
  else
    let c := cut (ch '=') key
    match QueryUnescape c.1 with
    | .error _ => m
    | .ok k =>
      match QueryUnescape c.2.1 with
      | .error _ => m
      | .ok v => m.Add k v

/-- The map Go `url.ParseQuery` builds (its error is dropped by
`URL.Query`). -/
def ParseQuery (query : Bytes) : Values :=
  (splitByte (ch '&') query).foldl parseQueryStep []

/-- Go `(*URL).Query`. -/
def URL.Query (u : URL) : Values := ParseQuery u.RawQuery

/-- Byte-wise lexicographic order of Go strings, `a <= b`. -/
def bytesLE : Bytes → Bytes → Bool
  | [], _ => true
  | _ :: _, [] => false
  | a :: as, b :: bs => a < b || (a = b && bytesLE as bs)

/-- Insert an entry into a list of entries sorted by key. -/
def insertByKey (e : Bytes × List Bytes) : Values → Values
  | [] => [e]
  | x :: rest => if bytesLE e.1 x.1 then e :: x :: rest else x :: insertByKey e rest

/-- The entries in the order of `sort.Strings` on their keys. -/
def sortByKey (v : Values) : Values := v.foldr insertByKey []

/-- Go `Values.Encode`: `key=value` pairs, keys sorted, joined by `&`. -/
def Values.Encode (v : Values) : Bytes :=
  (str "&").intercalate
    ((sortByKey v).flatMap fun e => e.2.map fun x => QueryEscape e.1 ++ str "=" ++ QueryEscape x)

/-! ## `encoding/json`: syntax

`json.Unmarshal` first checks that the whole input is one valid JSON text
(`checkValid`) and only then decodes it; here the text is read into a tree,
which exists exactly when the input is valid, and decoding walks the tree in
the order of the text.  Byte offsets of errors are not kept. -/

/-- A JSON text.  A number keeps its literal; a string keeps both the raw text
between its quotes and its unquoted bytes. -/
inductive JSON where
  | null
  | bool (b : Bool)
  | num (lit : Bytes)
  | str (raw : Bytes) (val : Bytes)
  | arr (xs : List JSON)
  | obj (kvs : List (Bytes × JSON))
  deriving Repr

/-- Go `utf8.EncodeRune`: the UTF-8 bytes of a code point, U+FFFD for a
surrogate or a value past U+10FFFF. -/
def utf8EncodeRune (r : Nat) : Bytes :=
  if r ≤ 0x7F then [Fin.ofNat r]
  else if r ≤ 0x7FF then [Fin.ofNat (0xC0 ||| r >>> 6), Fin.ofNat (0x80 ||| r &&& 0x3F)]
  else if r > 0x10FFFF ∨ (0xD800 ≤ r ∧ r ≤ 0xDFFF) then [0xEF, 0xBF, 0xBD]
  else if r ≤ 0xFFFF then
    [Fin.ofNat (0xE0 ||| r >>> 12), Fin.ofNat (0x80 ||| (r >>> 6) &&& 0x3F),
      Fin.ofNat (0x80 ||| r &&& 0x3F)]
  else
    [Fin.ofNat (0xF0 ||| r >>> 18), Fin.ofNat (0x80 ||| (r >>> 12) &&& 0x3F),
      Fin.ofNat (0x80 ||| (r >>> 6) &&& 0x3F), Fin.ofNat (0x80 ||| r &&& 0x3F)]

/-- A UTF-8 continuation byte. -/
def isCont (b : Byte) : Bool := 0x80 ≤ b.val && b.val ≤ 0xBF

/-- Go `utf8.DecodeRune` as `unquote` uses it: how many bytes the well-formed
UTF-8 sequence at the head of the text has, if there is one. -/
def utf8SeqLen : Bytes → Option Nat
  | [] => none
  | b0 :: rest =>
    if b0.val < 0x80 then some 1
    else if 0xC2 ≤ b0.val ∧ b0.val ≤ 0xDF then
      match rest with
      | b1 :: _ => if isCont b1 then some 2 else none
      | _ => none
    else if 0xE0 ≤ b0.val ∧ b0.val ≤ 0xEF then
      match rest with
      | b1 :: b2 :: _ =>
        let lo : Nat := if b0.val = 0xE0 then 0xA0 else 0x80
        let hi : Nat := if b0.val = 0xED then 0x9F else 0xBF
        if lo ≤ b1.val ∧ b1.val ≤ hi ∧ isCont b2 = true then some 3 else none
      | _ => none
    else if 0xF0 ≤ b0.val ∧ b0.val ≤ 0xF4 then
      match rest with
      | b1 :: b2 :: b3 :: _ =>
        let lo : Nat := if b0.val = 0xF0 then 0x90 else 0x80
        let hi : Nat := if b0.val = 0xF4 then 0x8F else 0xBF
        if lo ≤ b1.val ∧ b1.val ≤ hi ∧ isCont b2 = true ∧ isCont b3 = true then some 4 else none
      | _ => none
    else none

/-- The value of four hexadecimal digits (Go `getu4`). -/
def getu4 (a b c d : Byte) : Option Nat :=
  if ishex a && ishex b && ishex c && ishex d then
    some ((unhex a).val * 4096 + (unhex b).val * 256 + (unhex c).val * 16 + (unhex d).val)
  else none

/-- The low surrogate escaped as `\uXXXX` at the head of the text, if any. -/
def lowSurrogateAhead : Bytes → Option Nat
  | b1 :: u1 :: a2 :: b2 :: c2 :: d2 :: _ =>
    if b1 = ch '\\' ∧ u1 = ch 'u' then
      match getu4 a2 b2 c2 d2 with
      | some r2 => if 0xDC00 ≤ r2 ∧ r2 < 0xE000 then some r2 else none
      | none => none
    else none
  | _ => none

/-- The byte a one-letter escape stands for. -/
def simpleEscape (e : Byte) : Option Byte :=
  if e = ch '"' ∨ e = ch '\\' ∨ e = ch '/' then some e
  else if e = ch 'b' then some 8
  else if e = ch 'f' then some 12
  else if e = ch 'n' then some 10
  else if e = ch 'r' then some 13
  else if e = ch 't' then some 9
  else none

/-- Where the reader of a JSON string stands. -/
inductive StrState where
  | normal
  | copy (n : Nat)
  | skip (n : Nat)
  | esc
  | hex (k : Nat) (acc : Nat)
  deriving DecidableEq, Repr

/-- The body of a JSON string after its opening quote, read a byte at a time:
the raw text up to the closing quote, the unquoted bytes (Go `unquote`: escapes
resolved, surrogate pairs joined, ill-formed UTF-8 replaced by U+FFFD) and the
text after the closing quote.  `none` when the string is not valid JSON.
State `copy n` copies the `n` continuation bytes of a well-formed UTF-8
sequence, `skip n` passes over the second escape of a surrogate pair, `esc`
follows a backslash and `hex k acc` reads the last `k + 1` digits of a `\u`
escape. -/
def lexString : StrState → Bytes → Option (Bytes × Bytes × Bytes)
  | _, [] => none
  | st, c :: rest =>
    let emit (out : Bytes) (next : StrState) : Option (Bytes × Bytes × Bytes) :=
      match lexString next rest with
      | none => none
      | some (raw, val, after) => some (c :: raw, out ++ val, after)
    match st with
    | .copy n => emit [c] (if n ≤ 1 then .normal else .copy (n - 1))
    | .skip n => emit [] (if n ≤ 1 then .normal else .skip (n - 1))
    | .esc =>
      if c = ch 'u' then emit [] (.hex 3 0)
      else
        match simpleEscape c with
        | none => none
        | some o => emit [o] .normal
    | .hex k acc =>
      if !ishex c then none
      else
        let r := acc * 16 + (unhex c).val
        if k = 0 then
          match (if 0xD800 ≤ r ∧ r < 0xDC00 then lowSurrogateAhead rest else none) with
          | some r2 =>
            emit (utf8EncodeRune ((r - 0xD800) * 1024 + (r2 - 0xDC00) + 0x10000)) (.skip 6)
          | none => emit (utf8EncodeRune r) .normal
        else emit [] (.hex (k - 1) r)
    | .normal =>
      if c = ch '"' then some ([], [], rest)
      else if c.val < 0x20 then none
      else if c = ch '\\' then emit [] .esc
      else if c.val < 0x80 then emit [c] .normal
      else
        match utf8SeqLen (c :: rest) with
        | some n => emit [c] (if n ≤ 1 then .normal else .copy (n - 1))
        | none => emit [0xEF, 0xBF, 0xBD] .normal

/-- The longest prefix of decimal digits and the text after it. -/
def spanDigits : Bytes → Bytes × Bytes
  | [] => ([], [])
  | c :: rest =>
    if isDigit c then
      let r := spanDigits rest
      (c :: r.1, r.2)
    else ([], c :: rest)

/-- A JSON number at the head of the text, `-? (0 | [1-9][0-9]*) (. [0-9]+)?
([eE] [+-]? [0-9]+)?`: its literal and the text after it. -/
def lexNumber (s : Bytes) : Option (Bytes × Bytes) :=
  let (sign, s1) := match s with
    | c :: rest => if c = ch '-' then ([c], rest) else ([], s)
    | [] => ([], s)
  let intPart : Option (Bytes × Bytes) := match s1 with
    | c :: rest =>
      if c = ch '0' then some ([c], rest)
      else if isDigit c then
        let r := spanDigits rest
        some (c :: r.1, r.2)
      else none
    | [] => none
  match intPart with
  | none => none
  | some (ip, s2) =>
    let fracPart : Option (Bytes × Bytes) := match s2 with
      | c :: rest =>
        if c = ch '.' then
          let r := spanDigits rest
          if r.1 = [] then none else some (c :: r.1, r.2)
        else some ([], s2)
      | [] => some ([], s2)
    match fracPart with
    | none => none
    | some (fp, s3) =>
      let expPart : Option (Bytes × Bytes) := match s3 with
        | c :: rest =>
          if c = ch 'e' ∨ c = ch 'E' then
            let (sg, rest1) := match rest with
              | d :: rest0 => if d = ch '+' ∨ d = ch '-' then ([d], rest0) else ([], rest)
              | [] => ([], rest)
            let r := spanDigits rest1
            if r.1 = [] then none else some (c :: sg ++ r.1, r.2)
          else some ([], s3)
        | [] => some ([], s3)
      match expPart with
      | none => none
      | some (ep, s4) => some (sign ++ ip ++ fp ++ ep, s4)

/-- The tokens of a JSON text. -/
inductive Token where
  | lbrace
  | rbrace
  | lbracket
  | rbracket
  | colon
  | comma
  | scalar (j : JSON)
  deriving Repr

/-- JSON white space. -/
def isSpace (c : Byte) : Bool := c = ch ' ' || c = 9 || c = 13 || c = 10

/-- Split a text into tokens; `none` when some byte starts no token.  `fuel`
bounds the number of tokens, the length of the text is enough. -/
def tokenize : Nat → Bytes → Option (List Token)
  | _, [] => some []
  | 0, _ :: _ => none
  | fuel + 1, c :: rest =>
    let next (t : Token) (after : Bytes) : Option (List Token) :=
      (tokenize fuel after).map (t :: ·)
    if isSpace c then tokenize fuel rest
    else if c = ch '{' then next .lbrace rest
    else if c = ch '}' then next .rbrace rest
    else if c = ch '[' then next .lbracket rest
    else if c = ch ']' then next .rbracket rest
    else if c = ch ':' then next .colon rest
    else if c = ch ',' then next .comma rest
    else if c = ch '"' then
      match lexString .normal rest with
      | some (raw, val, after) => next (.scalar (.str raw val)) after
      | none => none
    else if (str "true").isPrefixOf (c :: rest) then next (.scalar (.bool true)) (rest.drop 3)
    else if (str "false").isPrefixOf (c :: rest) then next (.scalar (.bool false)) (rest.drop 4)
    else if (str "null").isPrefixOf (c :: rest) then next (.scalar .null) (rest.drop 3)
    else
      match lexNumber (c :: rest) with
      | some (lit, after) => next (.scalar (.num lit)) after
      | none => none

/-- Go `maxNestingDepth`: arrays and objects nest at most this deep. -/
def maxNestingDepth : Nat := 10000

mutual
/-- One JSON value at the head of the tokens, `depth` arrays and objects
around it. -/
def parseValue : Nat → Nat → List Token → Option (JSON × List Token)
  | 0, _, _ => none
  | _ + 1, _, [] => none
  | fuel + 1, depth, t :: rest =>
    match t with
    | .scalar j => some (j, rest)
    | .lbracket =>
      if depth + 1 > maxNestingDepth then none
      else
        match rest with
        | .rbracket :: rest1 => some (.arr [], rest1)
        | _ => parseElements fuel (depth + 1) rest
    | .lbrace =>
      if depth + 1 > maxNestingDepth then none
      else
        match rest with
        | .rbrace :: rest1 => some (.obj [], rest1)
        | _ => parseMembers fuel (depth + 1) rest
    | _ => none
/-- The elements of a non-empty array up to its closing bracket. -/
def parseElements : Nat → Nat → List Token → Option (JSON × List Token)
  | 0, _, _ => none
  | fuel + 1, depth, toks =>
    match parseValue fuel depth toks with
    | some (v, .comma :: rest) =>
      match parseElements fuel depth rest with
      | some (.arr xs, rest1) => some (.arr (v :: xs), rest1)
      | _ => none
    | some (v, .rbracket :: rest) => some (.arr [v], rest)
    | _ => none
/-- The members of a non-empty object up to its closing brace. -/
def parseMembers : Nat → Nat → List Token → Option (JSON × List Token)
  | 0, _, _ => none
  | fuel + 1, depth, toks =>
    match toks with
    | .scalar (.str _ key) :: .colon :: rest =>
      match parseValue fuel depth rest with
      | some (v, .comma :: rest1) =>
        match parseMembers fuel depth rest1 with
        | some (.obj kvs, rest2) => some (.obj ((key, v) :: kvs), rest2)
        | _ => none
      | some (v, .rbrace :: rest1) => some (.obj [(key, v)], rest1)
      | _ => none
    | _ => none
end

/-- The tree of a JSON text; `none` exactly when Go `checkValid` reports a
syntax error. -/
def parseJSON (data : Bytes) : Option JSON :=
  match tokenize data.length data with
  | none => none
  | some toks =>
    match parseValue (toks.length + 1) 0 toks with
    | some (j, []) => some j
    | _ => none

/-! ## `strconv`: the numbers of a JSON literal -/

/-- The value of a text of decimal digits. -/
def digitsValue (s : Bytes) : Nat := s.foldl (fun n c => n * 10 + (c.val - 48)) 0

/-- Go `strconv.ParseInt(s, 10, 64)` on a JSON number literal: the literal must
be an optional minus and digits only, and the value must fit 64 bits. -/
def parseInt64 (lit : Bytes) : Option Int :=
  let (neg, ds) := match lit with
    | c :: rest => if c = ch '-' then (true, rest) else (false, lit)
    | [] => (false, lit)
  if ds = [] ∨ !ds.all isDigit then none
  else
    let n : Int := if neg then -(digitsValue ds : Int) else (digitsValue ds : Int)
    if -(2 : Int) ^ 63 ≤ n ∧ n < (2 : Int) ^ 63 then some n else none

/-- A finite binary floating-point number, `(-1)^neg * mant * 2^exp`.  The
values `parseFloat` makes have `mant` of full width unless they are zero or
subnormal. -/
structure GoFloat where
  neg : Bool
  mant : Nat
  exp : Int
  deriving DecidableEq, Repr

/-- The zero value of a Go `float32` or `float64`. -/
def GoFloat.zero : GoFloat := ⟨false, 0, 0⟩

/-- A JSON number literal as sign, decimal digits `d` and decimal exponent `k`:
its value is `(-1)^sign * d * 10^k`. -/
def decimalOf (lit : Bytes) : Bool × Nat × Int :=
  let (neg, s1) := match lit with
    | c :: rest => if c = ch '-' then (true, rest) else (false, lit)
    | [] => (false, lit)
  let ip := spanDigits s1
  let (fp, s3) := match ip.2 with
    | c :: rest => if c = ch '.' then spanDigits rest else ([], c :: rest)
    | [] => ([], [])
  let e : Int := match s3 with
    | _ :: c :: rest =>
      if c = ch '-' then -(digitsValue rest : Int)
      else if c = ch '+' then (digitsValue rest : Int)
      else (digitsValue (c :: rest) : Int)
    | _ => 0
  (neg, digitsValue (ip.1 ++ fp), e - fp.length)

/-- The quotient `a / b` rounded to the nearest integer, ties to even. -/
def roundHalfEven (a b : Nat) : Nat :=
  let q := a / b
  let r := a % b
  if 2 * r < b then q
  else if 2 * r > b then q + 1
  else if q % 2 = 0 then q else q + 1

/-- The number of binary digits of `n`, for `n` of at most `fuel` digits. -/
def bitLenAux : Nat → Nat → Nat
  | 0, _ => 0
  | fuel + 1, n => if n = 0 then 0 else bitLenAux fuel (n / 2) + 1

/-- The number of binary digits of `n`: `floor (log2 n) + 1` for positive `n`. -/
def bitLen (n : Nat) : Nat := bitLenAux n n

/-- Round the positive rational `num / den` to the nearest binary float with
`mbits` bits of mantissa and least normal exponent `emin` (IEEE 754
round-to-nearest-even): the mantissa and the exponent of its last bit. -/
def roundBinary (mbits : Nat) (emin : Int) (num den : Nat) : Nat × Int :=
  let l : Int := (bitLen num : Int) - (bitLen den : Int)
  -- `e` is the exponent of the leading bit of `num / den`
  let e : Int :=
    if l ≥ 0 then (if den * 2 ^ l.toNat ≤ num then l else l - 1)
    else (if den ≤ num * 2 ^ (-l).toNat then l else l - 1)
  let shift : Int := max e emin - (mbits - 1 : Nat)
  let n : Nat :=
    if shift ≥ 0 then roundHalfEven num (den * 2 ^ shift.toNat)
    else roundHalfEven (num * 2 ^ (-shift).toNat) den
  if n = 2 ^ mbits then (2 ^ (mbits - 1), shift + 1) else (n, shift)

/-- Go `strconv.ParseFloat(s, bits)` on a JSON number literal, for a format with
`mbits` mantissa bits and exponents `emin` to `emax`: the nearest float, or
`none` for the range error of a value that rounds past the largest float. -/
def parseFloat (mbits : Nat) (emin emax : Int) (lit : Bytes) : Option GoFloat :=
  let (neg, d, k) := decimalOf lit
  if d = 0 then some ⟨neg, 0, 0⟩
  else
    let (m, x) :=
      if k ≥ 0 then roundBinary mbits emin (d * 10 ^ k.toNat) 1
      else roundBinary mbits emin d (10 ^ (-k).toNat)
    if m = 0 then some ⟨neg, 0, 0⟩
    else if x + (mbits - 1 : Nat) > emax then none
    else some ⟨neg, m, x⟩

/-- Go `strconv.ParseFloat(s, 32)`. -/
def parseFloat32 (lit : Bytes) : Option GoFloat := parseFloat 24 (-126) 127 lit

/-- Go `strconv.ParseFloat(s, 64)`. -/
def parseFloat64 (lit : Bytes) : Option GoFloat := parseFloat 53 (-1022) 1023 lit

/-! ## `encoding/json`: decoding onto Go values

Decoding stores into the target in place, member by member, in the order of the
text.  A value of the wrong JSON kind for its target records an
`UnmarshalTypeError` (the first one is kept) and decoding goes on; an error
returned by an `UnmarshalJSON` method (here that of `time.Time`) stops decoding
at once, leaving what was stored before. -/

/-- An error of `json.Unmarshal`.  An `UnmarshalTypeError` names the JSON value,
the Go type it could not be stored in, the struct and the path of the field. -/
inductive JSONError where
  | SyntaxError
  | UnmarshalTypeError (Value : Bytes) (goType : String) (Struct : String) (Field : List String)
  | TimeError
  deriving DecidableEq, Repr

/-- The `decodeState` of `encoding/json`: the first type error saved, the error
that stopped decoding, and the error context (struct and field path). -/
structure DecodeState where
  savedError : Option JSONError := none
  abort : Option JSONError := none
  Struct : String := ""
  FieldStack : List String := []
  deriving DecidableEq, Repr

/-- Go `(*decodeState).saveError` of an `UnmarshalTypeError` with the error
context added: only the first error is kept. -/
def saveError (st : DecodeState) (value : Bytes) (goType : String) : DecodeState :=
  match st.savedError with
  | some _ => st
  | none => { st with savedError := some (.UnmarshalTypeError value goType st.Struct st.FieldStack) }

/-- The name `UnmarshalTypeError.Value` gives the kind of a JSON value. -/
def kindOf : JSON → String
  | .null => "null"
  | .bool _ => "bool"
  | .num _ => "number"
  | .str _ _ => "string"
  | .arr _ => "array"
  | .obj _ => "object"

/-- A Go `interface{}` filled by the decoder: nil, `bool`, `float64`, `string`,
`[]interface{}` or `map[string]interface{}` (one entry per key). -/
inductive GoAny where
  | nil
  | bool (b : Bool)
  | float64 (f : GoFloat)
  | string (s : Bytes)
  | slice (xs : List GoAny)
  | map (m : List (Bytes × GoAny))
  deriving Repr

/-- The statement `m[key] = value` on a map kept as a list of entries. -/
def mapSet {α : Type} : List (Bytes × α) → Bytes → α → List (Bytes × α)
  | [], key, value => [(key, value)]
  | (k, v) :: rest, key, value =>
    if k = key then (k, value) :: rest else (k, v) :: mapSet rest key value

mutual
/-- Go `(*decodeState).valueInterface`: the `interface{}` of a JSON value.  A
number that is out of the range of `float64` records a type error and gives
nil. -/
def toAny : JSON → DecodeState → GoAny × DecodeState
  | .null, st => (.nil, st)
  | .bool b, st => (.bool b, st)
  | .num lit, st =>
    match parseFloat64 lit with
    | some f => (.float64 f, st)
    | none => (.nil, saveError st (str "number " ++ lit) "float64")
  | .str _ v, st => (.string v, st)
  | .arr xs, st =>
    let r := toAnyList xs st
    (.slice r.1, r.2)
  | .obj kvs, st =>
    let r := toAnyMembers kvs [] st
    (.map r.1, r.2)
/-- The elements of `arrayInterface`. -/
def toAnyList : List JSON → DecodeState → List GoAny × DecodeState
  | [], st => ([], st)
  | x :: xs, st =>
    let r := toAny x st
    let rs := toAnyList xs r.2
    (r.1 :: rs.1, rs.2)
/-- The entries of `objectInterface`, added to the map `acc`; a later member
with the same key replaces the earlier one. -/
def toAnyMembers : List (Bytes × JSON) → List (Bytes × GoAny) → DecodeState →
    List (Bytes × GoAny) × DecodeState
  | [], acc, st => (acc, st)
  | (k, x) :: kvs, acc, st =>
    let r := toAny x st
    toAnyMembers kvs (mapSet acc k r.1) r.2
end

/-- How a JSON value is stored onto a Go value of type `α`: the new value and
the new decoder state. -/
abbrev Store (α : Type) := JSON → α → DecodeState → α × DecodeState

/-- Store onto a Go `int` or `int64` (64 bits wide).  `null` stores nothing. -/
def storeInt (goType : String) : Store Int
  | .null, v, st => (v, st)
  | .num lit, v, st =>
    match parseInt64 lit with
    | some n => (n, st)
    | none => (v, saveError st (str "number " ++ lit) goType)
  | j, v, st => (v, saveError st (str (kindOf j)) goType)

/-- Store onto a Go `float32`. -/
def storeFloat32 : Store GoFloat
  | .null, v, st => (v, st)
  | .num lit, v, st =>
    match parseFloat32 lit with
    | some f => (f, st)
    | none => (v, saveError st (str "number " ++ lit) "float32")
  | j, v, st => (v, saveError st (str (kindOf j)) "float32")

/-- Store onto a Go `string`: only a JSON string is accepted. -/
def storeString : Store Bytes
  | .null, v, st => (v, st)
  | .str _ s, _, st => (s, st)
  | j, v, st => (v, saveError st (str (kindOf j)) "string")

/-- Store onto a Go `bool`. -/
def storeBool : Store Bool
  | .null, v, st => (v, st)
  | .bool b, _, st => (b, st)
  | j, v, st => (v, saveError st (str (kindOf j)) "bool")

/-- Store onto a Go `interface{}`. -/
def storeAny : Store GoAny
  | .num lit, v, st =>
    match parseFloat64 lit with
    | some f => (.float64 f, st)
    | none => (v, saveError st (str "number " ++ lit) "float64")
  | j, _, st => toAny j st

/-- A Go `time.Time`: seconds and nanoseconds since the zero time, and the
offset of its zone. -/
structure Time where
  sec : Int
  nsec : Nat
  offset : Int
  deriving DecidableEq, Repr

/-- The zero `time.Time`. -/
def Time.zero : Time := ⟨0, 0, 0⟩

/-- Store onto a Go `time.Time` through `(*Time).UnmarshalJSON`: `null` stores
nothing; a JSON string is parsed as RFC 3339 by `parseRFC3339`, applied to the
raw text between the quotes; every other JSON value is an error.  The error is
returned to the decoder, which stops. -/
def storeTime (parseRFC3339 : Bytes → Option Time) : Store Time
  | .null, v, st => (v, st)
  | .str raw _, _, st =>
    match parseRFC3339 raw with
    | some t => (t, st)
    | none => (Time.zero, { st with abort := some .TimeError })
  | _, v, st => (v, { st with abort := some .TimeError })

/-- The elements of a JSON array stored onto the elements of a slice: element
`i` starts from the old element `i` when the old slice has one, from the zero
value otherwise. -/
def storeElems {α : Type} (zero : α) (elem : Store α) :
    List JSON → List α → DecodeState → List α × DecodeState
  | [], _, st => ([], st)
  | x :: xs, old, st =>
    let r := elem x (old.headD zero) st
    let rs := storeElems zero elem xs old.tail r.2
    (r.1 :: rs.1, rs.2)

/-- Store onto a Go slice (`none` is the nil slice): `null` makes it nil, an
array replaces its elements. -/
def storeSlice {α : Type} (zero : α) (elem : Store α) (goType : String) :
    Store (Option (List α))
  | .null, _, st => (none, st)
  | .arr xs, old, st =>
    let r := storeElems zero elem xs (old.getD []) st
    (some r.1, r.2)
  | j, v, st => (v, saveError st (str (kindOf j)) goType)

/-- Store onto a Go `map[string]interface{}` (`none` is the nil map): `null`
makes it nil, an object adds its members to the map. -/
def storeAnyMap : Store (Option (List (Bytes × GoAny)))
  | .null, _, st => (none, st)
  | .obj kvs, old, st =>
    let r := toAnyMembers kvs (old.getD []) st
    (some r.1, r.2)
  | j, v, st => (v, saveError st (str (kindOf j)) "map[string]interface \x7b\x7d")

/-- A field of a Go struct as the decoder sees it: the name it is matched by
(the `json` tag, or the Go name) and how a value is stored in it. -/
structure Field (S : Type) where
  name : String
  store : JSON → S → DecodeState → S × DecodeState

/-- A field from its name, getter, setter and the store of its type. -/
def fld {S α : Type} (name : String) (get : S → α) (set : S → α → S) (store : Store α) :
    Field S :=
  ⟨name, fun j s st =>
    let r := store j (get s) st
    (set s r.1, r.2)⟩

/-- The case folding of `encoding/json` for object keys: ASCII letters to upper
case, the Kelvin sign U+212A to `K` and the long s U+017F to `S`.  `skip` counts
the bytes still to pass over of a folded multi-byte rune. -/
def foldName : Nat → Bytes → Bytes
  | _, [] => []
  | skip + 1, _ :: rest => foldName skip rest
  | 0, c :: rest =>
    if ch 'a' ≤ c ∧ c ≤ ch 'z' then (c - 32) :: foldName 0 rest
    else if c = 0xE2 ∧ rest.take 2 = [0x84, 0xAA] then ch 'K' :: foldName 2 rest
    else if c = 0xC5 ∧ rest.take 1 = [0xBF] then ch 'S' :: foldName 1 rest
    else c :: foldName 0 rest

/-- The field an object key names: an exact match of the name if there is one,
else the first field whose name matches without regard to case. -/
def findField {S : Type} (fields : List (Field S)) (key : Bytes) : Option (Field S) :=
  match fields.find? (fun f => str f.name = key) with
  | some f => some f
  | none => fields.find? (fun f => foldName 0 (str f.name) = foldName 0 key)

/-- The loop of Go `(*decodeState).object` on a struct: each member whose key
names a field is stored in that field, with the field pushed on the error
context; members of unknown key are skipped; nothing is read after an error
stopped decoding. -/
def storeMembers {S : Type} (structName : String) (fields : List (Field S)) :
    List (Bytes × JSON) → S → DecodeState → S × DecodeState
  | [], s, st => (s, st)
  | (k, j) :: rest, s, st =>
    match st.abort with
    | some _ => (s, st)
    | none =>
      match findField fields k with
      | none => storeMembers structName fields rest s st
      | some f =>
        let r := f.store j s { st with Struct := structName, FieldStack := st.FieldStack ++ [f.name] }
        storeMembers structName fields rest r.1
          { r.2 with Struct := st.Struct, FieldStack := st.FieldStack }

/-- Store onto a Go struct: `null` stores nothing, an object stores its members,
every other JSON value is a type error. -/
def storeStruct {S : Type} (structName goType : String) (fields : List (Field S)) : Store S
  | .null, s, st => (s, st)
  | .obj kvs, s, st => storeMembers structName fields kvs s st
  | j, s, st => (s, saveError st (str (kindOf j)) goType)

/-- Go `json.Unmarshal(data, &v)`: a syntax error stores nothing; otherwise the
value is decoded onto `v` and the error is the one that stopped decoding, else
the first type error saved, else nil. -/
def Unmarshal {α : Type} (store : Store α) (data : Bytes) (v : α) : α × Option JSONError :=
  match parseJSON data with
  | none => (v, some .SyntaxError)
  | some j =>
    let r := store j v {}
    (r.1, match r.2.abort with
          | some e => some e
          | none => r.2.savedError)

/-! ## The data model of `metadata.go` -/

/-- Go `ImageExif`. -/
structure ImageExif where
  Make : Bytes := []
  Model : Bytes := []
  Orientation : Bytes := []
  XResolution : Int := 0
  YResolution : Int := 0
  ResolutionUnit : Int := 0
  Software : Bytes := []
  ModifyDate : Time := Time.zero
  YCbCrPositioning : Int := 0
  ExifOffset : Int := 0
  GPSInfo : Int := 0
  deriving DecidableEq, Repr

/-- Go `ThumbnailExif`. -/
structure ThumbnailExif where
  Compression : Int := 0
  XResolution : Int := 0
  YResolution : Int := 0
  ResolutionUnit : Int := 0
  ThumbnailOffset : Int := 0
  ThumbnailLength : Int := 0
  deriving DecidableEq, Repr

/-- Go `Exif`: the exposure time is a `time.Time`, the F-number a `float32`. -/
structure Exif where
  ExposureTime : Time := Time.zero
  FNumber : GoFloat := GoFloat.zero
  ExposureProgram : Int := 0
  ISO : Int := 0
  ExifVersion : Bytes := []
  DateTimeOriginal : Time := Time.zero
  CreateDate : Time := Time.zero
  ShutterSpeedValue : GoFloat := GoFloat.zero
  ApertureValue : GoFloat := GoFloat.zero
  ExposureCompensation : Int := 0
  MeteringMode : Int := 0
  Flash : Int := 0
  FocalLength : Int := 0
  SubSEcTime : Bytes := []
  SubSecTimeOriginal : Bytes := []
  FlashpixVersion : Bytes := []
  ColorSpace : Int := 0
  ExifImageWidth : Int := 0
  ExifImageHeight : Int := 0
  InteropOffset : Int := 0
  FocalPlaneXResolution : GoFloat := GoFloat.zero
  FocalPlaneYResolution : GoFloat := GoFloat.zero
  FocalPlaneResolutionUnit : Int := 0
  CustomRendered : Int := 0
  ExposureMode : Int := 0
  WhiteBalance : Int := 0
  SceneCaptutureType : Int := 0
  deriving DecidableEq, Repr

/-- Go `Gps`; `none` is the nil slice. -/
structure Gps where
  GPSVersionID : Option (List Int) := none
  deriving DecidableEq, Repr

/-- Go `Interoperability`. -/
structure Interoperability where
  InteropIndex : Bytes := []
  InteropVersion : Bytes := []
  deriving DecidableEq, Repr

/-- Go `Mexif`; `none` is the nil map. -/
structure Mexif where
  Image : ImageExif := {}
  Thumbnail : ThumbnailExif := {}
  Exif : Exif := {}
  Gps : Gps := {}
  Interoperability : Interoperability := {}
  Makernote : Option (List (Bytes × GoAny)) := none
  deriving Repr

/-- Go `Metadata`; the value `{}` is the zero value. -/
structure Metadata where
  Height : Int := 0
  Width : Int := 0
  Size : Int := 0
  Format : Bytes := []
  HasColorProfile : Bool := false
  Quality : Int := 0
  Density : Int := 0
  HasTransparency : Bool := false
  PHash : Bytes := []
  Exif : Mexif := {}
  deriving Repr

/-- Go `Schema` (the field `Type` is written `Type_`); every name is the `json`
tag of the field.  The default, minimum and maximum values are Go strings. -/
structure Schema where
  Type_ : Bytes := []
  SelectOptions : Option (List GoAny) := none
  DefaultValue : Bytes := []
  IsValueRequired : Bool := false
  MinValue : Bytes := []
  MaxValue : Bytes := []
  MinLength : Int := 0
  MaxLength : Int := 0
  deriving Repr

/-- The fields of `ImageExif` in declaration order. -/
def ImageExif.fields (tp : Bytes → Option Time) : List (Field ImageExif) :=
  [ fld "Make" (·.Make) (fun s v => { s with Make := v }) storeString,
    fld "Model" (·.Model) (fun s v => { s with Model := v }) storeString,
    fld "Orientation" (·.Orientation) (fun s v => { s with Orientation := v }) storeString,
    fld "XResolution" (·.XResolution) (fun s v => { s with XResolution := v }) (storeInt "int"),
    fld "YResolution" (·.YResolution) (fun s v => { s with YResolution := v }) (storeInt "int"),
    fld "ResolutionUnit" (·.ResolutionUnit) (fun s v => { s with ResolutionUnit := v })
      (storeInt "int"),
    fld "Software" (·.Software) (fun s v => { s with Software := v }) storeString,
    fld "ModifyDate" (·.ModifyDate) (fun s v => { s with ModifyDate := v }) (storeTime tp),
    fld "YCbCrPositioning" (·.YCbCrPositioning) (fun s v => { s with YCbCrPositioning := v })
      (storeInt "int"),
    fld "ExifOffset" (·.ExifOffset) (fun s v => { s with ExifOffset := v }) (storeInt "int"),
    fld "GPSInfo" (·.GPSInfo) (fun s v => { s with GPSInfo := v }) (storeInt "int") ]

/-- The fields of `ThumbnailExif` in declaration order. -/
def ThumbnailExif.fields : List (Field ThumbnailExif) :=
  [ fld "Compression" (·.Compression) (fun s v => { s with Compression := v }) (storeInt "int"),
    fld "XResolution" (·.XResolution) (fun s v => { s with XResolution := v }) (storeInt "int"),
    fld "YResolution" (·.YResolution) (fun s v => { s with YResolution := v }) (storeInt "int"),
    fld "ResolutionUnit" (·.ResolutionUnit) (fun s v => { s with ResolutionUnit := v })
      (storeInt "int"),
    fld "ThumbnailOffset" (·.ThumbnailOffset) (fun s v => { s with ThumbnailOffset := v })
      (storeInt "int"),
    fld "ThumbnailLength" (·.ThumbnailLength) (fun s v => { s with ThumbnailLength := v })
      (storeInt "int") ]

/-- The fields of `Exif` in declaration order. -/
def Exif.fields (tp : Bytes → Option Time) : List (Field Exif) :=
  [ fld "ExposureTime" (·.ExposureTime) (fun s v => { s with ExposureTime := v }) (storeTime tp),
    fld "FNumber" (·.FNumber) (fun s v => { s with FNumber := v }) storeFloat32,
    fld "ExposureProgram" (·.ExposureProgram) (fun s v => { s with ExposureProgram := v })
      (storeInt "int"),
    fld "ISO" (·.ISO) (fun s v => { s with ISO := v }) (storeInt "int"),
    fld "ExifVersion" (·.ExifVersion) (fun s v => { s with ExifVersion := v }) storeString,
    fld "DateTimeOriginal" (·.DateTimeOriginal) (fun s v => { s with DateTimeOriginal := v })
      (storeTime tp),
    fld "CreateDate" (·.CreateDate) (fun s v => { s with CreateDate := v }) (storeTime tp),
    fld "ShutterSpeedValue" (·.ShutterSpeedValue) (fun s v => { s with ShutterSpeedValue := v })
      storeFloat32,
    fld "ApertureValue" (·.ApertureValue) (fun s v => { s with ApertureValue := v }) storeFloat32,
    fld "ExposureCompensation" (·.ExposureCompensation)
      (fun s v => { s with ExposureCompensation := v }) (storeInt "int"),
    fld "MeteringMode" (·.MeteringMode) (fun s v => { s with MeteringMode := v }) (storeInt "int"),
    fld "Flash" (·.Flash) (fun s v => { s with Flash := v }) (storeInt "int"),
    fld "FocalLength" (·.FocalLength) (fun s v => { s with FocalLength := v }) (storeInt "int"),
    fld "SubSEcTime" (·.SubSEcTime) (fun s v => { s with SubSEcTime := v }) storeString,
    fld "SubSecTimeOriginal" (·.SubSecTimeOriginal) (fun s v => { s with SubSecTimeOriginal := v })
      storeString,
    fld "FlashpixVersion" (·.FlashpixVersion) (fun s v => { s with FlashpixVersion := v })
      storeString,
    fld "ColorSpace" (·.ColorSpace) (fun s v => { s with ColorSpace := v }) (storeInt "int"),
    fld "ExifImageWidth" (·.ExifImageWidth) (fun s v => { s with ExifImageWidth := v })
      (storeInt "int"),
    fld "ExifImageHeight" (·.ExifImageHeight) (fun s v => { s with ExifImageHeight := v })
      (storeInt "int"),
    fld "InteropOffset" (·.InteropOffset) (fun s v => { s with InteropOffset := v })
      (storeInt "int"),
    fld "FocalPlaneXResolution" (·.FocalPlaneXResolution)
      (fun s v => { s with FocalPlaneXResolution := v }) storeFloat32,
    fld "FocalPlaneYResolution" (·.FocalPlaneYResolution)
      (fun s v => { s with FocalPlaneYResolution := v }) storeFloat32,
    fld "FocalPlaneResolutionUnit" (·.FocalPlaneResolutionUnit)
      (fun s v => { s with FocalPlaneResolutionUnit := v }) (storeInt "int"),
    fld "CustomRendered" (·.CustomRendered) (fun s v => { s with CustomRendered := v })
      (storeInt "int"),
    fld "ExposureMode" (·.ExposureMode) (fun s v => { s with ExposureMode := v }) (storeInt "int"),
    fld "WhiteBalance" (·.WhiteBalance) (fun s v => { s with WhiteBalance := v }) (storeInt "int"),
    fld "SceneCaptutureType" (·.SceneCaptutureType) (fun s v => { s with SceneCaptutureType := v })
      (storeInt "int") ]

/-- The fields of `Gps`. -/
def Gps.fields : List (Field Gps) :=
  [ fld "GPSVersionID" (·.GPSVersionID) (fun s v => { s with GPSVersionID := v })
      (storeSlice 0 (storeInt "int") "[]int") ]

/-- The fields of `Interoperability`. -/
def Interoperability.fields : List (Field Interoperability) :=
  [ fld "InteropIndex" (·.InteropIndex) (fun s v => { s with InteropIndex := v }) storeString,
    fld "InteropVersion" (·.InteropVersion) (fun s v => { s with InteropVersion := v })
      storeString ]

/-- The fields of `Mexif` in declaration order. -/
def Mexif.fields (tp : Bytes → Option Time) : List (Field Mexif) :=
  [ fld "Image" (·.Image) (fun s v => { s with Image := v })
      (storeStruct "ImageExif" "metadata.ImageExif" (ImageExif.fields tp)),
    fld "Thumbnail" (·.Thumbnail) (fun s v => { s with Thumbnail := v })
      (storeStruct "ThumbnailExif" "metadata.ThumbnailExif" ThumbnailExif.fields),
    fld "Exif" (·.Exif) (fun s v => { s with Exif := v })
      (storeStruct "Exif" "metadata.Exif" (Exif.fields tp)),
    fld "Gps" (·.Gps) (fun s v => { s with Gps := v })
      (storeStruct "Gps" "metadata.Gps" Gps.fields),
    fld "Interoperability" (·.Interoperability) (fun s v => { s with Interoperability := v })
      (storeStruct "Interoperability" "metadata.Interoperability" Interoperability.fields),
    fld "Makernote" (·.Makernote) (fun s v => { s with Makernote := v }) storeAnyMap ]

/-- The fields of `Metadata` in declaration order. -/
def Metadata.fields (tp : Bytes → Option Time) : List (Field Metadata) :=
  [ fld "Height" (·.Height) (fun s v => { s with Height := v }) (storeInt "int"),
    fld "Width" (·.Width) (fun s v => { s with Width := v }) (storeInt "int"),
    fld "Size" (·.Size) (fun s v => { s with Size := v }) (storeInt "int64"),
    fld "Format" (·.Format) (fun s v => { s with Format := v }) storeString,
    fld "HasColorProfile" (·.HasColorProfile) (fun s v => { s with HasColorProfile := v })
      storeBool,
    fld "Quality" (·.Quality) (fun s v => { s with Quality := v }) (storeInt "int"),
    fld "Density" (·.Density) (fun s v => { s with Density := v }) (storeInt "int"),
    fld "HasTransparency" (·.HasTransparency) (fun s v => { s with HasTransparency := v })
      storeBool,
    fld "PHash" (·.PHash) (fun s v => { s with PHash := v }) storeString,
    fld "Exif" (·.Exif) (fun s v => { s with Exif := v })
      (storeStruct "Mexif" "metadata.Mexif" (Mexif.fields tp)) ]

/-- The fields of `Schema`, each under its `json` tag. -/
def Schema.fields : List (Field Schema) :=
  [ fld "type" (·.Type_) (fun s v => { s with Type_ := v }) storeString,
    fld "selectOptions" (·.SelectOptions) (fun s v => { s with SelectOptions := v })
      (storeSlice GoAny.nil storeAny "[]interface \x7b\x7d"),
    fld "defaultValue" (·.DefaultValue) (fun s v => { s with DefaultValue := v }) storeString,
    fld "isValueRequired" (·.IsValueRequired) (fun s v => { s with IsValueRequired := v })
      storeBool,
    fld "minValue" (·.MinValue) (fun s v => { s with MinValue := v }) storeString,
    fld "maxValue" (·.MaxValue) (fun s v => { s with MaxValue := v }) storeString,
    fld "minLength" (·.MinLength) (fun s v => { s with MinLength := v }) (storeInt "int"),
    fld "maxLength" (·.MaxLength) (fun s v => { s with MaxLength := v }) (storeInt "int") ]

/-- The call `json.Unmarshal(data, &v)` for `v` of type `Metadata`. -/
def unmarshalMetadata (tp : Bytes → Option Time) (data : Bytes) (v : Metadata) :
    Metadata × Option JSONError :=
  Unmarshal (storeStruct "Metadata" "metadata.Metadata" (Metadata.fields tp)) data v

/-- The call `json.Unmarshal(data, &v)` for `v` of type `Schema`. -/
def unmarshalSchema (data : Bytes) (v : Schema) : Schema × Option JSONError :=
  Unmarshal (storeStruct "Schema" "metadata.Schema" Schema.fields) data v

/-! ## Errors, `encoding/base64`, `net/http` and the collaborators of package `metadata` -/

/-- A Go `error` value met in this package. -/
inductive GoError where
  | New (text : String)
  | url (text : Bytes) (err : URLError)
  | invalidMethod (method : Bytes)
  | json (err : JSONError)
  | other (code : Nat)
  deriving DecidableEq, Repr

/-- A Go `context.Context`, known by its identity.  The nil context, which
`(*Request).WithContext` panics on, is left out. -/
structure Context where
  id : Nat
  deriving DecidableEq, Repr

/-- Go `context.Background()`. -/
def Context.Background : Context := ⟨0⟩

/-! ### `encoding/base64`, the standard encoding -/

/-- Go `encodeStd`, the alphabet of `base64.StdEncoding`. -/
def encodeStd : Bytes :=
  str "ABCDEFGHIJKLMNOPQRSTUVWXYZabcdefghijklmnopqrstuvwxyz0123456789+/"

/-- The character `enc.encode[v]` of a 6-bit value. -/
def b64char (v : Nat) : Byte := encodeStd.getD v 0

/-- Go `enc.decodeMap[c]`: the 6-bit value of a character of the alphabet, none
for any other byte. -/
def b64val (c : Byte) : Option Nat :=
  (indexSub [c] encodeStd)

/-- Go `(*Encoding).EncodeToString` of `StdEncoding`: three bytes make a 24-bit
value written as four characters; one or two bytes left over are written as two
or three characters and padded with `=`. -/
def base64Encode : Bytes → Bytes
  | a :: b :: c :: rest =>
    let val := a.val * 65536 + b.val * 256 + c.val
    b64char (val / 262144 % 64) :: b64char (val / 4096 % 64) :: b64char (val / 64 % 64)
      :: b64char (val % 64) :: base64Encode rest
  | [a, b] =>
    let val := a.val * 65536 + b.val * 256
    [b64char (val / 262144 % 64), b64char (val / 4096 % 64), b64char (val / 64 % 64), ch '=']
  | [a] =>
    let val := a.val * 65536
    [b64char (val / 262144 % 64), b64char (val / 4096 % 64), ch '=', ch '=']
  | [] => []

/-- Go `(*Encoding).decodeQuantum` repeated over a text without line breaks:
four characters of the alphabet give three bytes; the last four may end in one
or two `=` and give two bytes or one; anything else is a `CorruptInputError`
(`none`).  `StdEncoding` is not strict: the unused low bits before a padding are
not checked. -/
def decodeQuanta : Bytes → Option Bytes
  | [] => some []
  | c0 :: c1 :: c2 :: c3 :: rest =>
    match b64val c0, b64val c1 with
    | some v0, some v1 =>
      if c2 = ch '=' then
        if c3 = ch '=' ∧ rest = [] then
          let val := v0 * 262144 + v1 * 4096
          some [Fin.ofNat (val / 65536)]
        else none
      else
        match b64val c2 with
        | none => none
        | some v2 =>
          if c3 = ch '=' then
            if rest = [] then
              let val := v0 * 262144 + v1 * 4096 + v2 * 64
              some [Fin.ofNat (val / 65536), Fin.ofNat (val / 256)]
            else none
          else
            match b64val c3 with
            | none => none
            | some v3 =>
              let val := v0 * 262144 + v1 * 4096 + v2 * 64 + v3
              (decodeQuanta rest).map fun t =>
                Fin.ofNat (val / 65536) :: Fin.ofNat (val / 256) :: Fin.ofNat val :: t
    | _, _ => none
  | _ => none

/-- Go `(*Encoding).DecodeString` of `StdEncoding`: carriage returns and line
feeds are skipped wherever they stand; `none` is the error. -/
def base64Decode (s : Bytes) : Option Bytes :=
  decodeQuanta (s.filter fun c => c ≠ 13 ∧ c ≠ 10)

/-! ### `net/http` -/

/-- Go `http.Request`, the parts this package sets: the method, the parsed URL,
the host, the value of the `Authorization` header (`none` when the header is
absent; the package sets no other header) and the context. -/
structure Request where
  Method : Bytes
  URL : URL
  Host : Bytes
  Authorization : Option Bytes := none
  ctx : Context := Context.Background
  deriving DecidableEq, Repr

/-- Go `httpguts.IsTokenRune` on a byte. -/
def isTokenByte (c : Byte) : Bool :=
  isAlpha c || isDigit c || c ∈ str "!#$%&\x27*+-.^_\x60|~"

/-- Go `validMethod`. -/
def validMethod (method : Bytes) : Bool := method ≠ [] && method.all isTokenByte

/-- Go `removeEmptyPort`: drop a trailing colon that follows the host. -/
def removeEmptyPort (host : Bytes) : Bytes :=
  let hasPort : Bool :=
    match lastIndexByte (ch ':') host, lastIndexByte (ch ']') host with
    | some i, some j => i > j
    | some _, none => true
    | none, _ => false
  if hasPort ∧ host.getLast? = some (ch ':') then host.dropLast else host

/-- Go `http.NewRequest(method, url, nil)`. -/
def NewRequest (method url : Bytes) : Except GoError Request :=
  let method := if method = [] then str "GET" else method
  if !validMethod method then .error (.invalidMethod method)
  else
    match Parse url with
    | .error e => .error (.url e.1 e.2)
    | .ok u =>
      let host := removeEmptyPort u.Host
      .ok { Method := method, URL := { u with Host := host }, Host := host }

/-- Go `basicAuth` of `net/http`: the base64 text of `username:password`. -/
def basicAuth (username password : Bytes) : Bytes :=
  base64Encode (username ++ str ":" ++ password)

/-- Go `(*Request).SetBasicAuth`: sets the header `Authorization` to `Basic `
followed by the base64 text of `username:password`. -/
def Request.SetBasicAuth (r : Request) (username password : Bytes) : Request :=
  { r with Authorization := some (str "Basic " ++ basicAuth username password) }

/-- Go `parseBasicAuth`: the user name and password of a header value
`Basic <base64 of username:password>`; the prefix is matched without regard to
ASCII case, and the decoded text is cut at its first colon.  `none` stands for
`ok == false`. -/
def parseBasicAuth (auth : Bytes) : Option (Bytes × Bytes) :=
  if auth.length < 6 ∨ toLowerASCII (auth.take 6) ≠ toLowerASCII (str "Basic ") then none
  else
    match base64Decode (auth.drop 6) with
    | none => none
    | some cs =>
      let r := cut (ch ':') cs
      if r.2.2 then some (r.1, r.2.1) else none

/-- Go `(*Request).BasicAuth`: the user name and password the request carries
in its `Authorization` header, when it uses HTTP Basic authentication. -/
def Request.BasicAuth (r : Request) : Option (Bytes × Bytes) :=
  match r.Authorization with
  | none => none
  | some auth => if auth = [] then none else parseBasicAuth auth

/-- Go `(*Request).WithContext`. -/
def Request.WithContext (r : Request) (ctx : Context) : Request := { r with ctx := ctx }

/-- Go `http.Response`: status code and the bytes its body yields. -/
structure HttpResponse where
  StatusCode : Int
  Body : Bytes
  deriving DecidableEq, Repr

/-- The transport, `api.HttpClient`: what `Client.Do(req)` returns for a
request, a response or nil and an error or nil. -/
abbrev HttpClient := Request → Option HttpResponse × Option GoError

/-- Modelled from the spec: `api.ResponseMetaData`, the part of `api.Response`
that `api.SetResponseMeta` fills and `Response.Body()` reads, is not under
`src/`; the spec's response envelope keeps the HTTP status code and the raw body
bytes, zero and empty when no response was received. -/
structure ResponseMetaData where
  StatusCode : Int := 0
  Body : Bytes := []
  deriving DecidableEq, Repr

/-- Modelled from the spec: `api.SetResponseMeta` is not under `src/`; the
envelope takes the status code and the raw body of the response, and is left
as it is when there is no response. -/
def SetResponseMeta (resp : Option HttpResponse) (old : ResponseMetaData) : ResponseMetaData :=
  match resp with
  | none => old
  | some r => { StatusCode := r.StatusCode, Body := r.Body }

/-- Modelled from the spec: the functions the code calls that are not under
`src/`, taken as parameters.  `BuildPath` is `api.BuildPath`, which joins the
configured prefix and a path; `ParseError` is `(*api.Response).ParseError`, the
error parse of the envelope, a function of its status and body; `parseRFC3339`
is the RFC 3339 parser of `time.Time.UnmarshalJSON`. -/
structure Extern where
  BuildPath : Bytes → Bytes → Bytes
  ParseError : ResponseMetaData → Option GoError
  parseRFC3339 : Bytes → Option Time

/-- The `API` section of `config.Configuration`. -/
structure APIConfig where
  Prefix : Bytes
  deriving DecidableEq, Repr

/-- The `Cloud` section of `config.Configuration`. -/
structure CloudConfig where
  PrivateKey : Bytes
  deriving DecidableEq, Repr

/-- Go `config.Configuration`, the fields the code reads. -/
structure Configuration where
  API : APIConfig
  Cloud : CloudConfig
  deriving DecidableEq, Repr

/-- Go `API`, the main struct (its logger is not used by the code here). -/
structure API where
  Config : Configuration
  Client : HttpClient

/-- Go `MetadataResponse`: the payload and the embedded `api.Response`. -/
structure MetadataResponse where
  Data : Metadata := {}
  Response : ResponseMetaData := {}
  deriving Repr

/-- What a call does that a caller can observe besides its results. -/
inductive Event where
  | Do (req : Request)
  | ParseError
  | Unmarshal
  | DeferredBodyClose
  deriving DecidableEq, Repr

/-- The results of `API.get` and the events of the call. -/
structure GetResult where
  resp : Option HttpResponse
  err : Option GoError
  trace : List Event

/-- Go `(*API).get`. -/
def API.get (x : Extern) (m : API) (ctx : Context) (url : Bytes) (query : List (Bytes × Bytes)) :
    GetResult :=
  match Parse (x.BuildPath m.Config.API.Prefix url) with
  | .error e => ⟨none, some (.url e.1 e.2), []⟩
  | .ok urlObj =>
    let values := query.foldl (fun vs kv => vs.Set kv.1 kv.2) urlObj.Query
    let sUrl := urlObj.String ++ str "?" ++ values.Encode
    match NewRequest (str "GET") sUrl with
    | .error e => ⟨none, some e, []⟩
    | .ok req =>
      let req := (req.SetBasicAuth m.Config.Cloud.PrivateKey []).WithContext ctx
      let r := m.Client req
      ⟨r.1, r.2, [.Do req]⟩

/-- The outcome of `FromAsset` or `FromUrl`: the two results, whether the call
panicked instead of returning, and the events of the call in order. -/
structure Outcome where
  response : Option MetadataResponse
  err : Option GoError
  panicked : Bool
  trace : List Event

/-- Go `(*API).FromAsset`. -/
def API.FromAsset (x : Extern) (m : API) (ctx : Context) (fileId : Bytes) : Outcome :=
  if fileId = [] then ⟨none, some (.New "fileId can not be blank"), false, []⟩
  else
    let response : MetadataResponse := {}
    let g := m.get x ctx (str "files/" ++ fileId ++ str "/metadata") []
    let response := { response with Response := SetResponseMeta g.resp response.Response }
    match g.err with
    | some err => ⟨some response, some err, false, g.trace ++ [.DeferredBodyClose]⟩
    | none =>
      match g.resp with
      | none => ⟨none, none, true, g.trace ++ [.DeferredBodyClose]⟩
      | some resp =>
        if resp.StatusCode ≠ 200 then
          ⟨some response, x.ParseError response.Response, false,
            g.trace ++ [.ParseError, .DeferredBodyClose]⟩
        else
          let r := unmarshalMetadata x.parseRFC3339 response.Response.Body response.Data
          ⟨some { response with Data := r.1 }, r.2.map .json, false,
            g.trace ++ [.Unmarshal, .DeferredBodyClose]⟩

/-- Go `(*API).FromUrl`. -/
def API.FromUrl (x : Extern) (m : API) (ctx : Context) (url : Bytes) : Outcome :=
  if url = [] then ⟨none, some (.New "url can not be blank"), false, []⟩
  else
    let response : MetadataResponse := {}
    let g := m.get x ctx (str "metadata") [(str "url", url)]
    let response := { response with Response := SetResponseMeta g.resp response.Response }
    match g.err with
    | some err => ⟨some response, some err, false, g.trace ++ [.DeferredBodyClose]⟩
    | none =>
      match g.resp with
      | none => ⟨none, none, true, g.trace ++ [.DeferredBodyClose]⟩
      | some resp =>
        if resp.StatusCode ≠ 200 then
          ⟨some response, x.ParseError response.Response, false,
            g.trace ++ [.ParseError, .DeferredBodyClose]⟩
        else
          let r := unmarshalMetadata x.parseRFC3339 response.Response.Body response.Data
          ⟨some { response with Data := r.1 }, r.2.map .json, false,
            g.trace ++ [.Unmarshal, .DeferredBodyClose]⟩

/-! ## Vocabulary of the statements and the fixtures of the tests -/

/-- The requests handed to the transport during a call, in order. -/
def calls (t : List Event) : List Request :=
  t.filterMap fun e =>
    match e with
    | .Do r => some r
    | _ => none

/-- The response body of `TestMetadata_FromFile` and `TestMetadata_FromUrl`. -/
def fixtureBody : Bytes :=
  str ("\x7b\"height\":801,\"width\":597,\"size\":59718,\"format\":\"jpg\",\"hasColorProfile\":true," ++
    "\"quality\":0,\"density\":72,\"hasTransparency\":false,\"exif\":\x7b\x7d,\"pHash\":\"85d07f1fe4ae8be2\"\x7d")

/-- The `Metadata` the fixture stands for: the listed fields, and every field of
every EXIF sub-record at its zero value. -/
def fixtureMetadata : Metadata :=
  { Height := 801, Width := 597, Size := 59718, Format := str "jpg", HasColorProfile := true,
    Quality := 0, Density := 72, HasTransparency := false, PHash := str "85d07f1fe4ae8be2",
    Exif := {} }

/-- The schema object of the fixture of `TestMetadata_CreateCustomField`. -/
def fixtureSchema : Bytes :=
  str "\x7b\"type\":\"Number\",\"defaultValue\":100,\"minValue\":1,\"maxValue\":120\x7d"

/-- The `getHandler` of the tests as a transport: every request is answered
with the status code and the body followed by a newline (`fmt.Fprintln`). -/
def getHandler (statusCode : Int) (body : Bytes) : HttpClient :=
  fun _ => (some ⟨statusCode, body ++ [10]⟩, none)

/-- A transport that answers every request with the given status and body. -/
def answer (statusCode : Int) (body : Bytes) : HttpClient :=
  fun _ => (some ⟨statusCode, body⟩, none)

/-- The `PrivateKey` of `test/test.go`. -/
def testPrivateKey : Bytes := str "private_XxZH+I8BfOoIsY0M9CQtS4nyNSk="

/-- A prefix of the shape the tests configure, `ts.URL + "/"`. -/
def testPrefix : Bytes := str "http://127.0.0.1:8080/"

/-- The `API` of the tests with the given transport. -/
def testAPI (client : HttpClient) : API :=
  { Config := { API := ⟨testPrefix⟩, Cloud := ⟨testPrivateKey⟩ }, Client := client }

/-- Modelled from the spec: `api.BuildPath` is not under `src/`; the spec joins
the path against the configured base endpoint, here by writing the path after
the prefix. -/
def joinPath (pfx path : Bytes) : Bytes := pfx ++ path

/-- Modelled from the spec: an instance of the functions that are not under
`src/`, for the examples.  The error parse answers with an error that
carries the status; the RFC 3339 parser accepts nothing (no example here holds a
time). -/
def testExtern : Extern :=
  { BuildPath := joinPath
    ParseError := fun r => some (.other r.StatusCode.toNat)
    parseRFC3339 := fun _ => none }

/-- A caller's context. -/
def testCtx : Context := ⟨7⟩

/-- The common tail of `FromAsset` and `FromUrl` (lines 176 to 193 and 202 to 223
of `metadata.go`) as a function of what `m.get` returned; the theorems
`FromAsset_eq_afterGet` and `FromUrl_eq_afterGet` show both functions are this
tail applied to their call of `m.get`. -/
def afterGet (x : Extern) (g : GetResult) : Outcome :=
  match g.err with
  | some err =>
    ⟨some { Data := {}, Response := SetResponseMeta g.resp {} }, some err, false,
      g.trace ++ [.DeferredBodyClose]⟩
  | none =>
    match g.resp with
    | none => ⟨none, none, true, g.trace ++ [.DeferredBodyClose]⟩
    | some resp =>
      if resp.StatusCode ≠ 200 then
        ⟨some { Data := {}, Response := ⟨resp.StatusCode, resp.Body⟩ },
          x.ParseError ⟨resp.StatusCode, resp.Body⟩, false,
          g.trace ++ [.ParseError, .DeferredBodyClose]⟩
      else
        ⟨some { Data := (unmarshalMetadata x.parseRFC3339 resp.Body {}).1,
                Response := ⟨resp.StatusCode, resp.Body⟩ },
          (unmarshalMetadata x.parseRFC3339 resp.Body {}).2.map .json, false,
          g.trace ++ [.Unmarshal, .DeferredBodyClose]⟩

/-- The file identifier of `TestMetadata_FromFile`. -/
def testFileId : Bytes := str "3325344545345"

/-- The URL argument of `TestMetadata_FromUrl`. -/
def testUrl : Bytes := str "https://ik.imagekit.io/xk1m7xkgi/default-image.jpg"

/-- The request `FromAsset` builds for `testFileId` under the test
configuration: the empty query leaves a bare `?`, which `net/url` keeps as
`ForceQuery`; the header is `Basic ` and the base64 text of the private key
followed by a colon. -/
def testAssetRequest : Request :=
  { Method := str "GET"
    URL := { Scheme := str "http", Host := str "127.0.0.1:8080",
             Path := str "/files/3325344545345/metadata", ForceQuery := true }
    Host := str "127.0.0.1:8080"
    Authorization := some (str "Basic cHJpdmF0ZV9YeFpIK0k4QmZPb0lzWTBNOUNRdFM0bnlOU2s9Og==")
    ctx := testCtx }

/-- The request `FromUrl` builds for `testUrl` under the test configuration. -/
def testUrlRequest : Request :=
  { Method := str "GET"
    URL := { Scheme := str "http", Host := str "127.0.0.1:8080", Path := str "/metadata",
             RawQuery := str "url=https%3A%2F%2Fik.imagekit.io%2Fxk1m7xkgi%2Fdefault-image.jpg" }
    Host := str "127.0.0.1:8080"
    Authorization := some (str "Basic cHJpdmF0ZV9YeFpIK0k4QmZPb0lzWTBNOUNRdFM0bnlOU2s9Og==")
    ctx := testCtx }

/-- An error body of the service, answered with a failure status. -/
def notFoundBody : Bytes := str "\x7b\"message\":\"not found\"\x7d"

/-- A body whose `height` decodes and whose `width` is a string where a number
is expected. -/
def halfValidBody : Bytes := str "\x7b\"height\":801,\"width\":\"x\"\x7d"

/-- A body whose `exif.exif` record gives the exposure time as a JSON number. -/
def exposureBody : Bytes := str "\x7b\"exif\":\x7b\"exif\":\x7b\"ExposureTime\":0.008\x7d\x7d\x7d"

/-- A body whose `exif.exif` record gives the F-number as the JSON number 2.8. -/
def fnumberBody : Bytes := str "\x7b\"exif\":\x7b\"exif\":\x7b\"FNumber\":2.8\x7d\x7d\x7d"

/-- A body whose `exif.exif` record gives the F-number as the JSON number 2.5. -/
def fnumberExactBody : Bytes := str "\x7b\"exif\":\x7b\"exif\":\x7b\"FNumber\":2.5\x7d\x7d\x7d"

/-- The object key names the field called `name` in the list of fields. -/
def namesField {S : Type} (fields : List (Field S)) (key : Bytes) (name : String) : Prop :=
  ∃ f, findField fields key = some f ∧ f.name = name

/-- The JSON tree `{k1:{k2:{k3:lit}}}` of a record nested twice that holds one
number. -/
def nestedNumber (k1 k2 k3 lit : Bytes) : JSON :=
  .obj [(k1, .obj [(k2, .obj [(k3, .num lit)])])]

/-- A byte that is not `&`, `;`, `#`, `?`, `=` or a control byte. -/
def querySafe (b : Byte) : Prop :=
  b ≠ ch '&' ∧ b ≠ ch ';' ∧ b ≠ ch '#' ∧ b ≠ ch '?' ∧ b ≠ ch '='
    ∧ (b < ch ' ' || b = 127) = false

/-- A text that holds neither `?` nor `#`, the marks of a query and of a
fragment. -/
def noDelim (s : Bytes) : Prop := ch '?' ∉ s ∧ ch '#' ∉ s

/-- The URL the test prefix joined with `metadata` parses to, which is also the
URL its text parses to. -/
def testMetadataURL : URL :=
  { Scheme := str "http", Host := str "127.0.0.1:8080", Path := str "/metadata" }

/-- The URL the test prefix joined with `files/3325344545345/metadata` parses
to. -/
def testAssetURL : URL :=
  { Scheme := str "http", Host := str "127.0.0.1:8080",
    Path := str "/files/3325344545345/metadata" }

/-- A `url` argument with `&`, `=`, `#`, `?`, `%`, `+`, a space and the two bytes
of a non-ASCII character. -/
def trickyUrl : Bytes := str "https://a.b/c d?e=f&g#h+%" ++ [0xC3, 0xA9]

/-- A file identifier that holds an ASCII control character. -/
def controlFileId : Bytes := [ch 'a', 1, ch 'b']

/-- A file identifier that holds a question mark. -/
def queryFileId : Bytes := str "a?b"

/-- A private key that holds a colon. -/
def colonKey : Bytes := str "priv:key"

/-- The `API` of the tests with the private key `colonKey`. -/
def colonAPI (client : HttpClient) : API :=
  { Config := { API := ⟨testPrefix⟩, Cloud := ⟨colonKey⟩ }, Client := client }

/-- A prefix without host whose path starts with an escaped slash and holds a
space. -/
def spacePrefix : Bytes := str "http:/%2Fx y/"

/-- A prefix without host whose path starts with an escaped slash followed by
the two bytes of `é`. -/
def accentPrefix : Bytes := str "http:/%2F" ++ [0xC3, 0xA9] ++ str "/"

/-- The `API` of the tests with another prefix. -/
def prefixAPI (pfx : Bytes) (client : HttpClient) : API :=
  { Config := { API := ⟨pfx⟩, Cloud := ⟨testPrivateKey⟩ }, Client := client }

/-- A file identifier with an escaped slash and a space. -/
def escapedFileId : Bytes := str "a%2Fb c"

/-- The file identifier `1`. -/
def oneFileId : Bytes := str "1"

open Encoding

/-! ## Theorems -/

set_option maxRecDepth 1000000

/-- C1: for the empty string as `fileId`, `FromAsset` returns an error and no
response and makes no call to the transport; likewise `FromUrl` for the empty
`url`.  This holds for every configuration, transport and context. -/
theorem C1_blank_argument_makes_no_call (x : Extern) (m : API) (ctx : Context) :
    ((m.FromAsset x ctx []).err = some (.New "fileId can not be blank")
      ∧ (m.FromAsset x ctx []).response = none
      ∧ (m.FromAsset x ctx []).panicked = false
      ∧ (m.FromAsset x ctx []).trace = []
      ∧ calls (m.FromAsset x ctx []).trace = [])
    ∧ ((m.FromUrl x ctx []).err = some (.New "url can not be blank")
      ∧ (m.FromUrl x ctx []).response = none
      ∧ (m.FromUrl x ctx []).panicked = false
      ∧ (m.FromUrl x ctx []).trace = []
      ∧ calls (m.FromUrl x ctx []).trace = []) := by
  simp [API.FromAsset, API.FromUrl, calls]

/-! ### The shape of a call -/

theorem FromAsset_eq_afterGet (x : Extern) (m : API) (ctx : Context) (fileId : Bytes)
    (h : fileId ≠ []) :
    m.FromAsset x ctx fileId
      = afterGet x (m.get x ctx (str "files/" ++ fileId ++ str "/metadata") []) := by
  unfold API.FromAsset afterGet
  rw [if_neg h]
  generalize m.get x ctx (str "files/" ++ fileId ++ str "/metadata") [] = g
  obtain ⟨resp, err, trace⟩ := g
  cases err <;> cases resp <;> simp [SetResponseMeta]

theorem FromUrl_eq_afterGet (x : Extern) (m : API) (ctx : Context) (url : Bytes)
    (h : url ≠ []) :
    m.FromUrl x ctx url = afterGet x (m.get x ctx (str "metadata") [(str "url", url)]) := by
  unfold API.FromUrl afterGet
  rw [if_neg h]
  generalize m.get x ctx (str "metadata") [(str "url", url)] = g
  obtain ⟨resp, err, trace⟩ := g
  cases err <;> cases resp <;> simp [SetResponseMeta]

theorem NewRequest_method (url : Bytes) (req : Request)
    (h : NewRequest (str "GET") url = .ok req) : req.Method = str "GET" := by
  unfold NewRequest at h
  have hne : (str "GET" = ([] : Bytes)) = False := by decide
  simp only [hne, if_false] at h
  split at h
  · cases h
  · split at h
    · cases h
    · cases h; rfl

/-- The call `m.get` hands at most one request to the transport, and when it
hands one over, its results are the transport's answer. -/
theorem get_trace_cases (x : Extern) (m : API) (ctx : Context) (url : Bytes)
    (query : List (Bytes × Bytes)) :
    ((m.get x ctx url query).trace = [] ∧ (m.get x ctx url query).resp = none
        ∧ (m.get x ctx url query).err ≠ none)
      ∨ ∃ req, (m.get x ctx url query).trace = [.Do req]
          ∧ (m.get x ctx url query).resp = (m.Client req).1
          ∧ (m.get x ctx url query).err = (m.Client req).2
          ∧ req.Method = str "GET"
          ∧ req.Authorization = some (str "Basic " ++ basicAuth m.Config.Cloud.PrivateKey [])
          ∧ req.ctx = ctx := by
  cases hp : Parse (x.BuildPath m.Config.API.Prefix url) with
  | error e =>
    left
    simp only [API.get, hp]
    simp
  | ok urlObj =>
    cases hr : NewRequest (str "GET")
        (urlObj.String ++ str "?"
          ++ (query.foldl (fun vs kv => vs.Set kv.1 kv.2) urlObj.Query).Encode) with
    | error e =>
      left
      simp only [API.get, hp, hr]
      simp
    | ok req =>
      right
      refine ⟨(req.SetBasicAuth m.Config.Cloud.PrivateKey []).WithContext ctx, ?_⟩
      have hm := NewRequest_method _ _ hr
      simp only [API.get, hp, hr]
      simp [Request.WithContext, Request.SetBasicAuth, hm]

theorem get_of_do (x : Extern) (m : API) (ctx : Context) (url : Bytes)
    (query : List (Bytes × Bytes)) (req : Request)
    (h : (m.get x ctx url query).trace = [.Do req]) :
    (m.get x ctx url query).resp = (m.Client req).1
      ∧ (m.get x ctx url query).err = (m.Client req).2
      ∧ req.Method = str "GET"
      ∧ req.Authorization = some (str "Basic " ++ basicAuth m.Config.Cloud.PrivateKey [])
      ∧ req.ctx = ctx := by
  rcases get_trace_cases x m ctx url query with h0 | ⟨r, ht, h1, h2, h3, h4, h5⟩
  · rw [h0.1] at h; cases h
  · rw [ht] at h; cases h; exact ⟨h1, h2, h3, h4, h5⟩

theorem afterGet_answer (x : Extern) (g : GetResult) (status : Int) (body : Bytes)
    (hr : g.resp = some ⟨status, body⟩) (he : g.err = none) :
    afterGet x g =
      if status ≠ 200 then
        ⟨some { Data := {}, Response := ⟨status, body⟩ }, x.ParseError ⟨status, body⟩, false,
          g.trace ++ [.ParseError, .DeferredBodyClose]⟩
      else
        ⟨some { Data := (unmarshalMetadata x.parseRFC3339 body {}).1, Response := ⟨status, body⟩ },
          (unmarshalMetadata x.parseRFC3339 body {}).2.map .json, false,
          g.trace ++ [.Unmarshal, .DeferredBodyClose]⟩ := by
  unfold afterGet
  rw [he, hr]

theorem fixture_decodes (tp : Bytes → Option Time) :
    unmarshalMetadata tp fixtureBody {} = (fixtureMetadata, none) := by
  rfl

theorem fixture_newline_decodes (tp : Bytes → Option Time) :
    unmarshalMetadata tp (fixtureBody ++ [10]) {} = (fixtureMetadata, none) := by
  rfl

theorem test_asset_trace (client : HttpClient) :
    ((testAPI client).get testExtern testCtx (str "files/" ++ testFileId ++ str "/metadata") []).trace
      = [.Do testAssetRequest] := by
  rfl

theorem test_url_trace (client : HttpClient) :
    ((testAPI client).get testExtern testCtx (str "metadata") [(str "url", testUrl)]).trace
      = [.Do testUrlRequest] := by
  rfl

/-- C3: when the transport answers with status 200, `FromAsset` and `FromUrl`
return a response whose `Data` and error are those of decoding the body onto a
zero `Metadata`; for the fixture body, with or without the newline the test
server adds, that is no error and the fixture's `Metadata`, every field of every
EXIF sub-record at its zero value. -/
theorem C3_status_200_decodes_body (x : Extern) (m : API) (ctx : Context) (arg body : Bytes)
    (req : Request) (harg : arg ≠ []) (hanswer : m.Client req = (some ⟨200, body⟩, none)) :
    ((m.get x ctx (str "files/" ++ arg ++ str "/metadata") []).trace = [.Do req] →
        (m.FromAsset x ctx arg).response
            = some ⟨(unmarshalMetadata x.parseRFC3339 body {}).1, ⟨200, body⟩⟩
          ∧ (m.FromAsset x ctx arg).err = (unmarshalMetadata x.parseRFC3339 body {}).2.map .json
          ∧ (m.FromAsset x ctx arg).panicked = false
          ∧ (body = fixtureBody ∨ body = fixtureBody ++ [10] →
              (m.FromAsset x ctx arg).response = some ⟨fixtureMetadata, ⟨200, body⟩⟩
                ∧ (m.FromAsset x ctx arg).err = none))
    ∧ ((m.get x ctx (str "metadata") [(str "url", arg)]).trace = [.Do req] →
        (m.FromUrl x ctx arg).response
            = some ⟨(unmarshalMetadata x.parseRFC3339 body {}).1, ⟨200, body⟩⟩
          ∧ (m.FromUrl x ctx arg).err = (unmarshalMetadata x.parseRFC3339 body {}).2.map .json
          ∧ (m.FromUrl x ctx arg).panicked = false
          ∧ (body = fixtureBody ∨ body = fixtureBody ++ [10] →
              (m.FromUrl x ctx arg).response = some ⟨fixtureMetadata, ⟨200, body⟩⟩
                ∧ (m.FromUrl x ctx arg).err = none)) := by
  have key : ∀ g : GetResult, g.trace = [.Do req] → g.resp = (m.Client req).1 →
      g.err = (m.Client req).2 →
      (afterGet x g).response = some ⟨(unmarshalMetadata x.parseRFC3339 body {}).1, ⟨200, body⟩⟩
        ∧ (afterGet x g).err = (unmarshalMetadata x.parseRFC3339 body {}).2.map .json
        ∧ (afterGet x g).panicked = false
        ∧ (body = fixtureBody ∨ body = fixtureBody ++ [10] →
            (afterGet x g).response = some ⟨fixtureMetadata, ⟨200, body⟩⟩
              ∧ (afterGet x g).err = none) := by
    intro g _ hr he
    rw [hanswer] at hr he
    rw [afterGet_answer x g 200 body hr he]
    simp only [ne_eq, not_true_eq_false, if_false, true_and]
    intro hb
    rcases hb with hb | hb
    · subst hb; rw [fixture_decodes]; exact ⟨rfl, rfl⟩
    · subst hb; rw [fixture_newline_decodes]; exact ⟨rfl, rfl⟩
  constructor
  · intro ht
    rw [FromAsset_eq_afterGet x m ctx arg harg]
    have h := get_of_do x m ctx _ _ req ht
    exact key _ ht h.1 h.2.1
  · intro ht
    rw [FromUrl_eq_afterGet x m ctx arg harg]
    have h := get_of_do x m ctx _ _ req ht
    exact key _ ht h.1 h.2.1

/-- Witness of C3: the calls of `TestMetadata_FromFile` and
`TestMetadata_FromUrl`, answered by the test handler. -/
theorem C3_test_calls_witness :
    (((testAPI (getHandler 200 fixtureBody)).FromAsset testExtern testCtx testFileId).response
        = some ⟨fixtureMetadata, ⟨200, fixtureBody ++ [10]⟩⟩
      ∧ ((testAPI (getHandler 200 fixtureBody)).FromAsset testExtern testCtx testFileId).err = none)
    ∧ (((testAPI (getHandler 200 fixtureBody)).FromUrl testExtern testCtx testUrl).response
        = some ⟨fixtureMetadata, ⟨200, fixtureBody ++ [10]⟩⟩
      ∧ ((testAPI (getHandler 200 fixtureBody)).FromUrl testExtern testCtx testUrl).err = none) :=
  ⟨((C3_status_200_decodes_body testExtern (testAPI (getHandler 200 fixtureBody)) testCtx
        testFileId (fixtureBody ++ [10]) testAssetRequest (by decide) rfl).1
      (test_asset_trace _)).2.2.2 (Or.inr rfl),
   ((C3_status_200_decodes_body testExtern (testAPI (getHandler 200 fixtureBody)) testCtx
        testUrl (fixtureBody ++ [10]) testUrlRequest (by decide) rfl).2
      (test_url_trace _)).2.2.2 (Or.inr rfl)⟩

theorem afterGet_parseError_mem (x : Extern) (g : GetResult)
    (hg : Event.ParseError ∉ g.trace) :
    Event.ParseError ∈ (afterGet x g).trace ↔
      g.err = none ∧ ∃ resp, g.resp = some resp ∧ resp.StatusCode ≠ 200 := by
  obtain ⟨resp, err, trace⟩ := g
  cases err with
  | some e => simpa [afterGet] using hg
  | none =>
    cases resp with
    | none => simpa [afterGet] using hg
    | some r =>
      by_cases hs : r.StatusCode = 200
      · simpa [afterGet, hs] using hg
      · simp [afterGet, hs]

theorem afterGet_unmarshal_mem (x : Extern) (g : GetResult)
    (hg : Event.Unmarshal ∉ g.trace) :
    Event.Unmarshal ∈ (afterGet x g).trace ↔
      g.err = none ∧ ∃ resp, g.resp = some resp ∧ resp.StatusCode = 200 := by
  obtain ⟨resp, err, trace⟩ := g
  cases err with
  | some e => simpa [afterGet] using hg
  | none =>
    cases resp with
    | none => simpa [afterGet] using hg
    | some r =>
      by_cases hs : r.StatusCode = 200
      · simp [afterGet, hs]
      · simpa [afterGet, hs] using hg

theorem get_trace_only_do (x : Extern) (m : API) (ctx : Context) (url : Bytes)
    (query : List (Bytes × Bytes)) (e : Event) (he : e ∈ (m.get x ctx url query).trace) :
    ∃ req, e = .Do req ∧ (m.get x ctx url query).trace = [.Do req] := by
  rcases get_trace_cases x m ctx url query with h0 | ⟨r, ht, -⟩
  · rw [h0.1] at he; cases he
  · rw [ht] at he
    simp only [List.mem_singleton] at he
    exact ⟨r, he, ht⟩

/-- C4, as the code has it: the error parse of the envelope is invoked exactly
when `m.get` returned a response and no error and the status differs from 200,
which includes the statuses 201 to 299; the body is decoded as `Metadata`
exactly when the status is 200. -/
theorem C4_error_parse_iff_status_not_200 (x : Extern) (m : API) (ctx : Context)
    (arg : Bytes) :
    ((Event.ParseError ∈ (m.FromAsset x ctx arg).trace ↔
        arg ≠ [] ∧ (m.get x ctx (str "files/" ++ arg ++ str "/metadata") []).err = none
          ∧ ∃ resp, (m.get x ctx (str "files/" ++ arg ++ str "/metadata") []).resp = some resp
              ∧ resp.StatusCode ≠ 200)
      ∧ (Event.Unmarshal ∈ (m.FromAsset x ctx arg).trace ↔
        arg ≠ [] ∧ (m.get x ctx (str "files/" ++ arg ++ str "/metadata") []).err = none
          ∧ ∃ resp, (m.get x ctx (str "files/" ++ arg ++ str "/metadata") []).resp = some resp
              ∧ resp.StatusCode = 200))
    ∧ ((Event.ParseError ∈ (m.FromUrl x ctx arg).trace ↔
        arg ≠ [] ∧ (m.get x ctx (str "metadata") [(str "url", arg)]).err = none
          ∧ ∃ resp, (m.get x ctx (str "metadata") [(str "url", arg)]).resp = some resp
              ∧ resp.StatusCode ≠ 200)
      ∧ (Event.Unmarshal ∈ (m.FromUrl x ctx arg).trace ↔
        arg ≠ [] ∧ (m.get x ctx (str "metadata") [(str "url", arg)]).err = none
          ∧ ∃ resp, (m.get x ctx (str "metadata") [(str "url", arg)]).resp = some resp
              ∧ resp.StatusCode = 200)) := by
  have hp : ∀ url query, Event.ParseError ∉ (m.get x ctx url query).trace := by
    intro url query h
    obtain ⟨r, hr, -⟩ := get_trace_only_do x m ctx url query _ h
    cases hr
  have hu : ∀ url query, Event.Unmarshal ∉ (m.get x ctx url query).trace := by
    intro url query h
    obtain ⟨r, hr, -⟩ := get_trace_only_do x m ctx url query _ h
    cases hr
  by_cases harg : arg = []
  · subst harg
    simp [API.FromAsset, API.FromUrl]
  · rw [FromAsset_eq_afterGet x m ctx arg harg, FromUrl_eq_afterGet x m ctx arg harg]
    rw [afterGet_parseError_mem x _ (hp _ _), afterGet_unmarshal_mem x _ (hu _ _),
      afterGet_parseError_mem x _ (hp _ _), afterGet_unmarshal_mem x _ (hu _ _)]
    simp [harg]

/-- Counterexample to C4 as stated: status 204 lies in 200 to 299, and for it
both `FromAsset` and `FromUrl` invoke the error parse and do not decode the
body. -/
theorem C4_status_204_invokes_error_parse :
    ((testAPI (answer 204 [])).FromAsset testExtern testCtx testFileId).trace
        = [.Do testAssetRequest, .ParseError, .DeferredBodyClose]
    ∧ ((testAPI (answer 204 [])).FromUrl testExtern testCtx testUrl).trace
        = [.Do testUrlRequest, .ParseError, .DeferredBodyClose] := by
  constructor <;> rfl

/-- C5: for every response whose status is outside 200 to 299 and every body,
`FromAsset` and `FromUrl` return the error the envelope's error parse produces,
a `Data` equal to the zero `Metadata` (the body is not decoded) and a response
envelope that holds the status and the raw body. -/
theorem C5_failure_status_returns_parsed_error (x : Extern) (m : API) (ctx : Context)
    (arg body : Bytes) (status : Int) (req : Request) (harg : arg ≠ [])
    (hstatus : status < 200 ∨ 299 < status)
    (hanswer : m.Client req = (some ⟨status, body⟩, none)) :
    ((m.get x ctx (str "files/" ++ arg ++ str "/metadata") []).trace = [.Do req] →
        (m.FromAsset x ctx arg).err = x.ParseError ⟨status, body⟩
          ∧ (m.FromAsset x ctx arg).response = some ⟨{}, ⟨status, body⟩⟩
          ∧ (m.FromAsset x ctx arg).panicked = false
          ∧ (m.FromAsset x ctx arg).trace = [.Do req, .ParseError, .DeferredBodyClose])
    ∧ ((m.get x ctx (str "metadata") [(str "url", arg)]).trace = [.Do req] →
        (m.FromUrl x ctx arg).err = x.ParseError ⟨status, body⟩
          ∧ (m.FromUrl x ctx arg).response = some ⟨{}, ⟨status, body⟩⟩
          ∧ (m.FromUrl x ctx arg).panicked = false
          ∧ (m.FromUrl x ctx arg).trace = [.Do req, .ParseError, .DeferredBodyClose]) := by
  have hne : status ≠ 200 := by omega
  have key : ∀ g : GetResult, g.trace = [.Do req] → g.resp = (m.Client req).1 →
      g.err = (m.Client req).2 →
      (afterGet x g).err = x.ParseError ⟨status, body⟩
        ∧ (afterGet x g).response = some ⟨{}, ⟨status, body⟩⟩
        ∧ (afterGet x g).panicked = false
        ∧ (afterGet x g).trace = [.Do req, .ParseError, .DeferredBodyClose] := by
    intro g ht hr he
    rw [hanswer] at hr he
    rw [afterGet_answer x g status body hr he, if_pos hne, ht]
    exact ⟨rfl, rfl, rfl, rfl⟩
  constructor
  · intro ht
    rw [FromAsset_eq_afterGet x m ctx arg harg]
    have h := get_of_do x m ctx _ _ req ht
    exact key _ ht h.1 h.2.1
  · intro ht
    rw [FromUrl_eq_afterGet x m ctx arg harg]
    have h := get_of_do x m ctx _ _ req ht
    exact key _ ht h.1 h.2.1

/-- Witness of C5: status 404 with a JSON error body, under the test
configuration. -/
theorem C5_status_404_witness :
    ((testAPI (answer 404 notFoundBody)).FromAsset testExtern testCtx
        testFileId).err = some (.other 404)
    ∧ ((testAPI (answer 404 notFoundBody)).FromAsset testExtern testCtx
        testFileId).response = some ⟨{}, ⟨404, notFoundBody⟩⟩
    ∧ ((testAPI (answer 404 notFoundBody)).FromUrl testExtern testCtx
        testUrl).err = some (.other 404)
    ∧ ((testAPI (answer 404 notFoundBody)).FromUrl testExtern testCtx
        testUrl).response = some ⟨{}, ⟨404, notFoundBody⟩⟩ :=
  have ha := (C5_failure_status_returns_parsed_error testExtern
    (testAPI (answer 404 notFoundBody)) testCtx testFileId
    notFoundBody 404 testAssetRequest (by decide) (by decide) rfl).1
    (test_asset_trace _)
  have hu := (C5_failure_status_returns_parsed_error testExtern
    (testAPI (answer 404 notFoundBody)) testCtx testUrl
    notFoundBody 404 testUrlRequest (by decide) (by decide) rfl).2
    (test_url_trace _)
  ⟨ha.1, ha.2.1, hu.1, hu.2.1⟩

theorem unmarshal_syntax_error (tp : Bytes → Option Time) (body : Bytes)
    (h : parseJSON body = none) :
    unmarshalMetadata tp body {} = ({}, some .SyntaxError) := by
  unfold unmarshalMetadata Unmarshal
  rw [h]

theorem afterGet_status_200 (x : Extern) (m : API) (g : GetResult) (req : Request)
    (body : Bytes) (hanswer : m.Client req = (some ⟨200, body⟩, none))
    (hr : g.resp = (m.Client req).1) (he : g.err = (m.Client req).2) :
    (afterGet x g).response = some ⟨(unmarshalMetadata x.parseRFC3339 body {}).1, ⟨200, body⟩⟩
      ∧ (afterGet x g).err = (unmarshalMetadata x.parseRFC3339 body {}).2.map .json := by
  rw [hanswer] at hr he
  rw [afterGet_answer x g 200 body hr he]
  simp

/-- C6, as the code has it: when the body of a status-200 answer fails to
decode, `FromAsset` and `FromUrl` return the decode error together with the
`Data` that `json.Unmarshal` left behind, the fields it stored included; `Data`
is the zero `Metadata` when the body is not valid JSON. -/
theorem C6_decode_failure_returns_what_was_stored (x : Extern) (m : API) (ctx : Context)
    (arg body : Bytes) (req : Request) (e : JSONError) (harg : arg ≠ [])
    (hanswer : m.Client req = (some ⟨200, body⟩, none))
    (hfail : (unmarshalMetadata x.parseRFC3339 body {}).2 = some e) :
    ((m.get x ctx (str "files/" ++ arg ++ str "/metadata") []).trace = [.Do req] →
        (m.FromAsset x ctx arg).err = some (.json e)
          ∧ (m.FromAsset x ctx arg).response
              = some ⟨(unmarshalMetadata x.parseRFC3339 body {}).1, ⟨200, body⟩⟩
          ∧ (parseJSON body = none →
              (m.FromAsset x ctx arg).response = some ⟨{}, ⟨200, body⟩⟩ ∧ e = .SyntaxError))
    ∧ ((m.get x ctx (str "metadata") [(str "url", arg)]).trace = [.Do req] →
        (m.FromUrl x ctx arg).err = some (.json e)
          ∧ (m.FromUrl x ctx arg).response
              = some ⟨(unmarshalMetadata x.parseRFC3339 body {}).1, ⟨200, body⟩⟩
          ∧ (parseJSON body = none →
              (m.FromUrl x ctx arg).response = some ⟨{}, ⟨200, body⟩⟩ ∧ e = .SyntaxError)) := by
  have key : ∀ o : Outcome,
      (o.response = some ⟨(unmarshalMetadata x.parseRFC3339 body {}).1, ⟨200, body⟩⟩
        ∧ o.err = (unmarshalMetadata x.parseRFC3339 body {}).2.map .json) →
      o.err = some (.json e)
        ∧ o.response = some ⟨(unmarshalMetadata x.parseRFC3339 body {}).1, ⟨200, body⟩⟩
        ∧ (parseJSON body = none → o.response = some ⟨{}, ⟨200, body⟩⟩ ∧ e = .SyntaxError) := by
    rintro o ⟨h1, h2⟩
    refine ⟨by rw [h2, hfail]; rfl, h1, ?_⟩
    intro hs
    have hu := unmarshal_syntax_error x.parseRFC3339 body hs
    rw [hu] at hfail h1
    refine ⟨h1, ?_⟩
    simp only [Option.some.injEq] at hfail
    exact hfail.symm
  constructor
  · intro ht
    rw [FromAsset_eq_afterGet x m ctx arg harg]
    have h := get_of_do x m ctx _ _ req ht
    exact key _ (afterGet_status_200 x m _ req body hanswer h.1 h.2.1)
  · intro ht
    rw [FromUrl_eq_afterGet x m ctx arg harg]
    have h := get_of_do x m ctx _ _ req ht
    exact key _ (afterGet_status_200 x m _ req body hanswer h.1 h.2.1)

/-- Counterexample to C6 as stated: for the body `{"height":801,"width":"x"}`
answered with status 200, `FromAsset` and `FromUrl` return the type error of
`width` together with a `Data` whose `Height` is 801, not zero. -/
theorem C6_half_valid_body_populates_data :
    (((testAPI (answer 200 halfValidBody)).FromAsset testExtern testCtx testFileId).err
        = some (.json (.UnmarshalTypeError (str "string") "int" "Metadata" ["Width"]))
      ∧ ((testAPI (answer 200 halfValidBody)).FromAsset testExtern testCtx testFileId).response
        = some ⟨{ Height := 801 }, ⟨200, halfValidBody⟩⟩)
    ∧ (((testAPI (answer 200 halfValidBody)).FromUrl testExtern testCtx testUrl).err
        = some (.json (.UnmarshalTypeError (str "string") "int" "Metadata" ["Width"]))
      ∧ ((testAPI (answer 200 halfValidBody)).FromUrl testExtern testCtx testUrl).response
        = some ⟨{ Height := 801 }, ⟨200, halfValidBody⟩⟩) := by
  refine ⟨⟨?_, ?_⟩, ⟨?_, ?_⟩⟩ <;> rfl

/-- Witness of C6 as amended: the half-valid body under the test
configuration. -/
theorem C6_half_valid_body_witness :
    ((testAPI (answer 200 halfValidBody)).FromAsset testExtern testCtx testFileId).err
        = some (.json (.UnmarshalTypeError (str "string") "int" "Metadata" ["Width"]))
    ∧ ((testAPI (answer 200 halfValidBody)).FromUrl testExtern testCtx testUrl).err
        = some (.json (.UnmarshalTypeError (str "string") "int" "Metadata" ["Width"])) :=
  ⟨((C6_decode_failure_returns_what_was_stored testExtern (testAPI (answer 200 halfValidBody))
      testCtx testFileId halfValidBody testAssetRequest _ (by decide) rfl rfl).1
      (test_asset_trace _)).1,
   ((C6_decode_failure_returns_what_was_stored testExtern (testAPI (answer 200 halfValidBody))
      testCtx testUrl halfValidBody testUrlRequest _ (by decide) rfl rfl).2
      (test_url_trace _)).1⟩

/-- C8, on the code: decoding the schema object of the create-custom-field
fixture onto `Schema` fails.  `DefaultValue`, `MinValue` and `MaxValue` are Go
strings, so the number 100 of `defaultValue` is a type error; `Type` is stored,
the three values stay empty. -/
theorem C8_fixture_schema_fails_to_decode :
    unmarshalSchema fixtureSchema {}
      = ({ Type_ := str "Number" },
          some (.UnmarshalTypeError (str "number") "string" "Schema" ["defaultValue"])) := by
  rfl

/-! ### An error of `UnmarshalJSON` stops the decoder -/

theorem storeMembers_of_abort {S : Type} (structName : String) (fields : List (Field S))
    (kvs : List (Bytes × JSON)) (s : S) (st : DecodeState) (h : st.abort ≠ none) :
    storeMembers structName fields kvs s st = (s, st) := by
  cases kvs with
  | nil => rfl
  | cons kv rest =>
    obtain ⟨k, j⟩ := kv
    unfold storeMembers
    cases ha : st.abort with
    | none => exact absurd ha h
    | some e => rfl

/-- When some member of an object names a field whose store stops the decoder,
the decoder is stopped after the object. -/
theorem storeMembers_abort {S : Type} (structName : String) (fields : List (Field S))
    (k : Bytes) (j : JSON) (f : Field S) (hf : findField fields k = some f)
    (hab : ∀ s st, (f.store j s st).2.abort ≠ none) :
    ∀ (kvs : List (Bytes × JSON)) (s : S) (st : DecodeState), (k, j) ∈ kvs →
      (storeMembers structName fields kvs s st).2.abort ≠ none := by
  intro kvs
  induction kvs with
  | nil => intro s st h; cases h
  | cons kv rest ih =>
    intro s st hmem
    obtain ⟨k', j'⟩ := kv
    unfold storeMembers
    cases ha : st.abort with
    | some e => simp [ha]
    | none =>
      simp only []
      rcases List.mem_cons.mp hmem with heq | hrest
      · cases heq
        rw [hf]
        simp only []
        rw [storeMembers_of_abort]
        · exact hab _ _
        · exact hab _ _
      · cases hk : findField fields k' with
        | none => exact ih s st hrest
        | some f' => exact ih _ _ hrest

theorem storeStruct_obj_abort {S : Type} (structName goType : String) (fields : List (Field S))
    (k : Bytes) (j : JSON) (f : Field S) (hf : findField fields k = some f)
    (hab : ∀ s st, (f.store j s st).2.abort ≠ none)
    (kvs : List (Bytes × JSON)) (hmem : (k, j) ∈ kvs) (s : S) (st : DecodeState) :
    (storeStruct structName goType fields (.obj kvs) s st).2.abort ≠ none := by
  unfold storeStruct
  exact storeMembers_abort structName fields k j f hf hab kvs s st hmem

theorem findField_mem {S : Type} (fields : List (Field S)) (k : Bytes) (f : Field S)
    (h : findField fields k = some f) : f ∈ fields := by
  unfold findField at h
  split at h
  · rename_i g hg
    cases h
    exact List.mem_of_find?_eq_some hg
  · exact List.mem_of_find?_eq_some h

theorem exif_exposureTime_aborts (tp : Bytes → Option Time) (f : Field Exif)
    (hf : f ∈ Exif.fields tp) (hn : f.name = "ExposureTime") (lit : Bytes) (s : Exif)
    (st : DecodeState) : (f.store (.num lit) s st).2.abort ≠ none := by
  simp only [Exif.fields, List.mem_cons, List.mem_singleton, List.not_mem_nil, or_false] at hf
  rcases hf with h | h | h | h | h | h | h | h | h | h | h | h | h | h | h | h | h | h | h | h
    | h | h | h | h | h | h | h
  all_goals subst h
  all_goals first
    | (simp [fld, storeTime]; done)
    | (exfalso; revert hn; simp [fld])

theorem mexif_exif_store (tp : Bytes → Option Time) (f : Field Mexif)
    (hf : f ∈ Mexif.fields tp) (hn : f.name = "Exif") :
    f.store = (fld "Exif" (·.Exif) (fun s v => { s with Exif := v })
      (storeStruct "Exif" "metadata.Exif" (Exif.fields tp))).store := by
  simp only [Mexif.fields, List.mem_cons, List.mem_singleton, List.not_mem_nil, or_false] at hf
  rcases hf with h | h | h | h | h | h
  all_goals subst h
  all_goals first
    | rfl
    | (exfalso; revert hn; simp [fld])

theorem metadata_exif_store (tp : Bytes → Option Time) (f : Field Metadata)
    (hf : f ∈ Metadata.fields tp) (hn : f.name = "Exif") :
    f.store = (fld "Exif" (·.Exif) (fun s v => { s with Exif := v })
      (storeStruct "Mexif" "metadata.Mexif" (Mexif.fields tp))).store := by
  simp only [Metadata.fields, List.mem_cons, List.mem_singleton, List.not_mem_nil, or_false] at hf
  rcases hf with h | h | h | h | h | h | h | h | h | h
  all_goals subst h
  all_goals first
    | rfl
    | (exfalso; revert hn; simp [fld])

theorem fld_abort {S α : Type} (name : String) (get : S → α) (set : S → α → S)
    (store : Store α) (j : JSON) (s : S) (st : DecodeState) :
    ((fld name get set store).store j s st).2.abort = (store j (get s) st).2.abort := rfl

/-- C7, as the code has it: `Exif.ExposureTime` is a `time.Time`, so a body
whose `exif.exif` record gives the exposure time as a JSON number does not
decode, `json.Unmarshal` returns an error; `Exif.FNumber` is a `float32`, so an
F-number given as a JSON number is stored as the `float32` that
`strconv.ParseFloat` rounds it to. -/
theorem C7_exposure_number_fails_fnumber_is_float32 (tp : Bytes → Option Time)
    (body : Bytes) :
    (∀ top mid ex kTop kMid kExp lit,
        parseJSON body = some (.obj top) →
        (kTop, JSON.obj mid) ∈ top → namesField (Metadata.fields tp) kTop "Exif" →
        (kMid, JSON.obj ex) ∈ mid → namesField (Mexif.fields tp) kMid "Exif" →
        (kExp, JSON.num lit) ∈ ex → namesField (Exif.fields tp) kExp "ExposureTime" →
        (unmarshalMetadata tp body {}).2 ≠ none)
    ∧ (∀ lit f,
        parseJSON body = some (nestedNumber (str "exif") (str "exif") (str "FNumber") lit) →
        parseFloat32 lit = some f →
        unmarshalMetadata tp body {} = ({ Exif := { Exif := { FNumber := f } } }, none)) := by
  constructor
  · rintro top mid ex kTop kMid kExp lit hparse hTop ⟨fTop, hfTop, hnTop⟩ hMid
      ⟨fMid, hfMid, hnMid⟩ hExp ⟨fExp, hfExp, hnExp⟩
    have hE : ∀ (s : Exif) (st : DecodeState), (fExp.store (.num lit) s st).2.abort ≠ none :=
      fun s st => exif_exposureTime_aborts tp fExp (findField_mem _ _ _ hfExp) hnExp lit s st
    have hM : ∀ (s : Mexif) (st : DecodeState), (fMid.store (.obj ex) s st).2.abort ≠ none := by
      intro s st
      rw [mexif_exif_store tp fMid (findField_mem _ _ _ hfMid) hnMid, fld_abort]
      exact storeStruct_obj_abort _ _ _ kExp (.num lit) fExp hfExp hE ex hExp _ _
    have hT : ∀ (s : Metadata) (st : DecodeState),
        (fTop.store (.obj mid) s st).2.abort ≠ none := by
      intro s st
      rw [metadata_exif_store tp fTop (findField_mem _ _ _ hfTop) hnTop, fld_abort]
      exact storeStruct_obj_abort _ _ _ kMid (.obj ex) fMid hfMid hM mid hMid _ _
    have hA := storeStruct_obj_abort "Metadata" "metadata.Metadata" (Metadata.fields tp) kTop
      (.obj mid) fTop hfTop hT top hTop {} {}
    unfold unmarshalMetadata Unmarshal
    rw [hparse]
    simp only []
    cases hab : (storeStruct "Metadata" "metadata.Metadata" (Metadata.fields tp) (.obj top)
        {} {}).2.abort with
    | none => exact absurd hab hA
    | some e => simp
  · intro lit f hparse hf
    unfold unmarshalMetadata Unmarshal
    rw [hparse]
    have hstore : storeStruct "Metadata" "metadata.Metadata" (Metadata.fields tp)
        (nestedNumber (str "exif") (str "exif") (str "FNumber") lit) {} {}
        = ({ Exif := { Exif := { FNumber :=
              (storeFloat32 (.num lit) GoFloat.zero
                { Struct := "Exif", FieldStack := ["Exif", "Exif", "FNumber"] }).1 } } },
            { (storeFloat32 (.num lit) GoFloat.zero
                { Struct := "Exif", FieldStack := ["Exif", "Exif", "FNumber"] }).2 with
              Struct := "", FieldStack := [] }) := by
      rfl
    simp only [hstore]
    simp [storeFloat32, hf]

/-- Counterexample to C7 as stated: with the exposure time given as the number
0.008 decoding fails, `FromAsset` and `FromUrl` return the error of
`time.Time.UnmarshalJSON` and `ExposureTime` stays the zero time; with the
F-number given as 2.8 the decoded `FNumber` is `11744051 * 2^-22`, which is not
2.8. -/
theorem C7_exposure_number_is_rejected :
    (((testAPI (answer 200 exposureBody)).FromAsset testExtern testCtx testFileId).err
        = some (.json .TimeError)
      ∧ ((testAPI (answer 200 exposureBody)).FromUrl testExtern testCtx testUrl).err
        = some (.json .TimeError)
      ∧ unmarshalMetadata testExtern.parseRFC3339 exposureBody {} = ({}, some .TimeError))
    ∧ (unmarshalMetadata testExtern.parseRFC3339 fnumberBody {}
        = ({ Exif := { Exif := { FNumber := ⟨false, 11744051, -22⟩ } } }, none)
      ∧ 11744051 * 10 ≠ 28 * 2 ^ 22) := by
  refine ⟨⟨?_, ?_, ?_⟩, ?_, ?_⟩
  · rfl
  · rfl
  · rfl
  · rfl
  · decide

/-- Witness of C7 as amended: the body with the exposure time 0.008 fails to
decode; the body with the F-number 2.5 decodes to the `float32` 2.5, which is
`10485760 * 2^-22`. -/
theorem C7_amended_witness :
    (unmarshalMetadata testExtern.parseRFC3339 exposureBody {}).2 ≠ none
    ∧ unmarshalMetadata testExtern.parseRFC3339 fnumberExactBody {}
        = ({ Exif := { Exif := { FNumber := ⟨false, 10485760, -22⟩ } } }, none) :=
  ⟨(C7_exposure_number_fails_fnumber_is_float32 testExtern.parseRFC3339 exposureBody).1
      [(str "exif", .obj [(str "exif", .obj [(str "ExposureTime", .num (str "0.008"))])])]
      [(str "exif", .obj [(str "ExposureTime", .num (str "0.008"))])]
      [(str "ExposureTime", .num (str "0.008"))]
      (str "exif") (str "exif") (str "ExposureTime") (str "0.008")
      rfl (List.mem_cons_self _ _) ⟨_, rfl, rfl⟩ (List.mem_cons_self _ _) ⟨_, rfl, rfl⟩
      (List.mem_cons_self _ _) ⟨_, rfl, rfl⟩,
   (C7_exposure_number_fails_fnumber_is_float32 testExtern.parseRFC3339 fnumberExactBody).2
      (str "2.5") ⟨false, 10485760, -22⟩ rfl rfl⟩

/-! ### Query escaping -/

theorem byte_forall (P : Byte → Prop) (h : ∀ n (hn : n < 256), P ⟨n, hn⟩) : ∀ c, P c :=
  fun c => h c.val c.isLt

theorem hex_round_trip : ∀ c : Byte,
    ishex (upperhex (c / 16)) = true ∧ ishex (upperhex (c % 16)) = true
      ∧ hexByte (upperhex (c / 16)) (upperhex (c % 16)) = c :=
  byte_forall _ (by decide!)

theorem query_unescaped_byte : ∀ c : Byte,
    shouldEscape c encodeQueryComponent = false → c ≠ ch '%' ∧ c ≠ ch '+' :=
  byte_forall _ (by decide!)

theorem upperhex_querySafe : ∀ c : Byte,
    querySafe (upperhex (c / 16)) ∧ querySafe (upperhex (c % 16)) :=
  byte_forall _ (by unfold querySafe; decide!)

theorem unescaped_querySafe : ∀ c : Byte,
    shouldEscape c encodeQueryComponent = false → querySafe c :=
  byte_forall _ (by unfold querySafe; decide!)

/-- The bytes `QueryEscape` writes are never `&`, `;`, `#`, `?`, `=` or a control
byte. -/
theorem escapeByte_query_safe (c b : Byte) (hb : b ∈ escapeByte encodeQueryComponent c) :
    querySafe b := by
  unfold escapeByte at hb
  by_cases hsp : c = ch ' '
  · simp only [hsp, true_and, if_true, and_self, List.mem_singleton] at hb
    subst hb
    unfold querySafe
    decide
  · simp only [hsp, false_and, if_false] at hb
    cases hse : shouldEscape c encodeQueryComponent with
    | true =>
      simp only [hse, if_true, List.mem_cons, List.mem_singleton, List.not_mem_nil,
        or_false] at hb
      rcases hb with hb | hb | hb
      · subst hb; unfold querySafe; decide
      · subst hb; exact (upperhex_querySafe c).1
      · subst hb; exact (upperhex_querySafe c).2
    | false =>
      simp only [hse, Bool.false_eq_true, if_false, List.mem_singleton] at hb
      subst hb
      exact unescaped_querySafe _ hse

theorem escape_cons (c : Byte) (s : Bytes) (mode : Encoding) :
    escape (c :: s) mode = escapeByte mode c ++ escape s mode := by
  simp [escape]

theorem QueryEscape_safe (s : Bytes) : ∀ b ∈ QueryEscape s, querySafe b := by
  intro b hb
  simp only [QueryEscape, escape, List.mem_flatMap] at hb
  obtain ⟨c, -, hc⟩ := hb
  exact escapeByte_query_safe c b hc

theorem unescape_query_plain (c : Byte) (t : Bytes) (h1 : c ≠ ch '%') (h2 : c ≠ ch '+') :
    unescape (c :: t) encodeQueryComponent
      = match unescape t encodeQueryComponent with
        | .ok r => .ok (c :: r)
        | .error e => .error e := by
  conv => lhs; unfold unescape
  simp [h1, h2]

theorem unescape_query_plus (t : Bytes) :
    unescape (ch '+' :: t) encodeQueryComponent
      = match unescape t encodeQueryComponent with
        | .ok r => .ok (ch ' ' :: r)
        | .error e => .error e := by
  conv => lhs; unfold unescape
  have h1 : (ch '+' = ch '%') = False := by decide
  simp [h1]

theorem unescape_query_hex (a b : Byte) (t : Bytes) (ha : ishex a = true)
    (hb : ishex b = true) :
    unescape (ch '%' :: a :: b :: t) encodeQueryComponent
      = match unescape t encodeQueryComponent with
        | .ok r => .ok (hexByte a b :: r)
        | .error e => .error e := by
  conv => lhs; unfold unescape
  simp [ha, hb]

/-- One byte of the round trip: unescaping what `escapeByte` wrote for `c`, in
front of a text that unescapes to `r`, gives `c` in front of `r`. -/
theorem unescape_escapeByte_query (c : Byte) (t r : Bytes)
    (ht : unescape t encodeQueryComponent = .ok r) :
    unescape (escapeByte encodeQueryComponent c ++ t) encodeQueryComponent = .ok (c :: r) := by
  unfold escapeByte
  by_cases hsp : c = ch ' '
  · subst hsp
    simp only [true_and, if_true, List.singleton_append, and_self]
    rw [unescape_query_plus, ht]
  · simp only [hsp, false_and, if_false]
    cases hse : shouldEscape c encodeQueryComponent with
    | true =>
      obtain ⟨h1, h2, h3⟩ := hex_round_trip c
      simp only [if_true, List.cons_append, List.nil_append]
      rw [unescape_query_hex _ _ _ h1 h2, ht, h3]
    | false =>
      obtain ⟨h1, h2⟩ := query_unescaped_byte c hse
      simp only [Bool.false_eq_true, if_false, List.singleton_append]
      rw [unescape_query_plain _ _ h1 h2, ht]

/-- `QueryUnescape` undoes `QueryEscape` on every byte string. -/
theorem QueryUnescape_QueryEscape (s : Bytes) : QueryUnescape (QueryEscape s) = .ok s := by
  unfold QueryUnescape QueryEscape
  induction s with
  | nil => rfl
  | cons c s ih =>
    rw [escape_cons]
    exact unescape_escapeByte_query c _ _ ih

theorem cut_not_mem (sep : Byte) (s : Bytes) (h : sep ∉ s) : cut sep s = (s, [], false) := by
  induction s with
  | nil => rfl
  | cons c rest ih =>
    have hc : c ≠ sep := fun e => h (e ▸ List.mem_cons_self _ _)
    have hr : sep ∉ rest := fun e => h (List.mem_cons_of_mem _ e)
    simp [cut, hc, ih hr]

theorem cut_append (sep : Byte) (a b : Bytes) (h : sep ∉ a) :
    cut sep (a ++ sep :: b) = (a, b, true) := by
  induction a with
  | nil => simp [cut]
  | cons c rest ih =>
    have hc : c ≠ sep := fun e => h (e ▸ List.mem_cons_self _ _)
    have hr : sep ∉ rest := fun e => h (List.mem_cons_of_mem _ e)
    simp [cut, hc, ih hr]

theorem cut_fst_not_mem (sep : Byte) (s : Bytes) : sep ∉ (cut sep s).1 := by
  induction s with
  | nil => simp [cut]
  | cons c rest ih =>
    unfold cut
    by_cases hc : c = sep
    · simp [hc]
    · simp only [hc, if_false, List.mem_cons, not_or]
      exact ⟨fun e => hc e.symm, ih⟩

theorem cut_fst_subset (sep : Byte) (s : Bytes) : ∀ b ∈ (cut sep s).1, b ∈ s := by
  induction s with
  | nil => simp [cut]
  | cons c rest ih =>
    unfold cut
    by_cases hc : c = sep
    · simp [hc]
    · simp only [hc, if_false, List.mem_cons]
      rintro b (hb | hb)
      · exact Or.inl hb
      · exact Or.inr (ih b hb)

theorem splitByte_not_mem (sep : Byte) (s : Bytes) (h : sep ∉ s) : splitByte sep s = [s] := by
  induction s with
  | nil => rfl
  | cons c rest ih =>
    have hc : c ≠ sep := fun e => h (e ▸ List.mem_cons_self _ _)
    have hr : sep ∉ rest := fun e => h (List.mem_cons_of_mem _ e)
    simp [splitByte, hc, ih hr]

/-- Parsing the query string `url=` followed by the escaped value gives back
exactly one key, `url`, with the value unchanged. -/
theorem ParseQuery_url (v : Bytes) :
    ParseQuery (str "url=" ++ QueryEscape v) = [(str "url", [v])] := by
  have hsafe := QueryEscape_safe v
  have hamp : ch '&' ∉ str "url=" ++ QueryEscape v := by
    intro h
    rcases List.mem_append.mp h with h | h
    · revert h; decide
    · exact (hsafe _ h).1 rfl
  have hsemi : ch ';' ∉ str "url=" ++ QueryEscape v := by
    intro h
    rcases List.mem_append.mp h with h | h
    · revert h; decide
    · exact (hsafe _ h).2.1 rfl
  have hcut : cut (ch '=') (str "url=" ++ QueryEscape v) = (str "url", QueryEscape v, true) := by
    have : str "url=" ++ QueryEscape v = str "url" ++ ch '=' :: QueryEscape v := by
      have : str "url=" = str "url" ++ [ch '='] := by decide
      rw [this]; simp
    rw [this]
    exact cut_append _ _ _ (by decide)
  have hne : str "url=" ++ QueryEscape v ≠ [] := by
    have : str "url=" = ch 'u' :: str "rl=" := by decide
    rw [this]; simp
  have hkey : QueryUnescape (str "url") = .ok (str "url") := by decide
  unfold ParseQuery
  rw [splitByte_not_mem _ _ hamp]
  simp only [List.foldl_cons, List.foldl_nil]
  unfold parseQueryStep
  rw [if_neg hsemi, if_neg hne]
  simp only [hcut, hkey, QueryUnescape_QueryEscape]
  rfl

theorem Encode_url (v : Bytes) :
    Values.Encode (Values.Set [] (str "url") v) = str "url=" ++ QueryEscape v := by
  have hkey : QueryEscape (str "url") = str "url" := by decide
  have hjoin : str "url" ++ str "=" = str "url=" := by decide
  simp [Values.Encode, Values.Set, sortByKey, insertByKey, hkey, List.intercalate]
  rw [← List.append_assoc, hjoin]

theorem Encode_nil : Values.Encode [] = [] := by
  rfl

theorem ParseQuery_nil : ParseQuery [] = [] := by
  rfl

/-! ### Appending a query to a URL text -/

theorem getSchemeLoop_append (raw raw' : Bytes) (q : Bytes) :
    ∀ (s pre : Bytes),
      getSchemeLoop raw' pre (s ++ ch '?' :: q) =
        match getSchemeLoop raw pre s with
        | .error e => .error e
        | .ok (sch, rest) => if sch = [] then .ok ([], raw') else .ok (sch, rest ++ ch '?' :: q) := by
  intro s
  induction s with
  | nil =>
    intro pre
    have h1 : isAlpha (ch '?') = false := by decide
    have h2 : (isDigit (ch '?') || ch '?' = ch '+' || ch '?' = ch '-' || ch '?' = ch '.') = false := by
      decide
    have h3 : (ch '?' = ch ':') = False := by decide
    simp [getSchemeLoop, h1, h2, h3]
  | cons c s ih =>
    intro pre
    simp only [List.cons_append, getSchemeLoop]
    by_cases ha : isAlpha c = true
    · simp only [ha, if_true]
      exact ih _
    · simp only [ha, Bool.false_eq_true, if_false]
      by_cases hd : (isDigit c || c = ch '+' || c = ch '-' || c = ch '.') = true
      · simp only [hd, if_true]
        by_cases hp : pre = []
        · simp [hp]
        · simp only [hp, if_false]
          exact ih _
      · simp only [hd, Bool.false_eq_true, if_false]
        by_cases hc : c = ch ':'
        · simp only [hc, if_true]
          by_cases hp : pre = []
          · simp [hp]
          · simp [hp]
        · simp [hc]

/-- What `getSchemeLoop` returns: no scheme and the whole text, or a scheme that
extends `pre` and a rest taken from the text. -/
theorem getSchemeLoop_ok (raw : Bytes) :
    ∀ (s pre sch rest : Bytes), getSchemeLoop raw pre s = .ok (sch, rest) →
      (sch = [] ∧ rest = raw) ∨ (sch ≠ [] ∧ (∀ b ∈ rest, b ∈ s)
        ∧ ∀ b ∈ sch, b ∈ pre ∨ (isAlpha b || isDigit b || b = ch '+' || b = ch '-' || b = ch '.') = true) := by
  intro s
  induction s with
  | nil =>
    intro pre sch rest h
    simp only [getSchemeLoop, Except.ok.injEq, Prod.mk.injEq] at h
    exact Or.inl ⟨h.1.symm, h.2.symm⟩
  | cons c s ih =>
    intro pre sch rest h
    simp only [getSchemeLoop] at h
    have step : ∀ (hc : (isAlpha c || isDigit c || c = ch '+' || c = ch '-' || c = ch '.') = true),
        getSchemeLoop raw (pre ++ [c]) s = .ok (sch, rest) →
        (sch = [] ∧ rest = raw) ∨ (sch ≠ [] ∧ (∀ b ∈ rest, b ∈ c :: s)
          ∧ ∀ b ∈ sch, b ∈ pre ∨
            (isAlpha b || isDigit b || b = ch '+' || b = ch '-' || b = ch '.') = true) := by
      intro hc h'
      rcases ih _ _ _ h' with h0 | ⟨h1, h2, h3⟩
      · exact Or.inl h0
      · refine Or.inr ⟨h1, fun b hb => List.mem_cons_of_mem _ (h2 b hb), ?_⟩
        intro b hb
        rcases h3 b hb with hm | hm
        · rcases List.mem_append.mp hm with hm | hm
          · exact Or.inl hm
          · simp only [List.mem_singleton] at hm
            subst hm
            exact Or.inr hc
        · exact Or.inr hm
    by_cases ha : isAlpha c = true
    · simp only [ha, if_true] at h
      exact step (by simp [ha]) h
    · simp only [ha, Bool.false_eq_true, if_false] at h
      by_cases hd : (isDigit c || c = ch '+' || c = ch '-' || c = ch '.') = true
      · simp only [hd, if_true] at h
        by_cases hp : pre = []
        · simp only [hp, if_true, Except.ok.injEq, Prod.mk.injEq] at h
          exact Or.inl ⟨h.1.symm, h.2.symm⟩
        · simp only [hp, if_false] at h
          refine step ?_ h
          simp only [Bool.or_eq_true, decide_eq_true_eq] at hd ⊢
          tauto
      · simp only [hd, Bool.false_eq_true, if_false] at h
        by_cases hc : c = ch ':'
        · simp only [hc, if_true] at h
          by_cases hp : pre = []
          · simp [hp] at h
          · simp only [hp, if_false, Except.ok.injEq, Prod.mk.injEq] at h
            obtain ⟨h1, h2⟩ := h
            subst h1 h2
            exact Or.inr ⟨hp, fun b hb => List.mem_cons_of_mem _ hb, fun b hb => Or.inl hb⟩
        · simp only [hc, if_false, Except.ok.injEq, Prod.mk.injEq] at h
          exact Or.inl ⟨h.1.symm, h.2.symm⟩

theorem setPath_query (url : URL) (p q : Bytes) (f : Bool) (u : URL)
    (h : URL.setPath url p = .ok u) :
    URL.setPath { url with RawQuery := q, ForceQuery := f } p
      = .ok { u with RawQuery := q, ForceQuery := f } := by
  unfold URL.setPath at h ⊢
  cases hp : unescape p encodePath with
  | error e => rw [hp] at h; cases h
  | ok path =>
    rw [hp] at h
    simp only [Except.ok.injEq] at h ⊢
    subst h
    rfl

/-- The tail of `parse` does not look at the query: with another `RawQuery` and
`ForceQuery` it gives the same URL but for these two fields. -/
theorem parseRest_query (url : URL) (rest q : Bytes) (f : Bool) (u : URL)
    (h : parseRest url rest = .ok u) :
    parseRest { url with RawQuery := q, ForceQuery := f } rest
      = .ok { u with RawQuery := q, ForceQuery := f } := by
  unfold parseRest at h ⊢
  by_cases c1 : (!(str "/").isPrefixOf rest) = true ∧ url.Scheme ≠ []
  · rw [if_pos c1] at h
    rw [if_pos c1]
    simp only [Except.ok.injEq] at h ⊢
    subst h
    rfl
  · rw [if_neg c1] at h
    rw [if_neg c1]
    by_cases c2 : (!(str "/").isPrefixOf rest) = true ∧ ch ':' ∈ (cut (ch '/') rest).1
    · rw [if_pos c2] at h
      cases h
    · rw [if_neg c2] at h
      rw [if_neg c2]
      by_cases c3 : (url.Scheme ≠ [] ∨ (!(str "///").isPrefixOf rest) = true)
          ∧ (str "//").isPrefixOf rest = true
      · rw [if_pos c3] at h
        rw [if_pos c3]
        simp only [] at h ⊢
        split at h
        · cases h
        · exact setPath_query _ _ q f u h
      · rw [if_neg c3] at h
        rw [if_neg c3]
        by_cases c4 : url.Scheme ≠ [] ∧ (str "/").isPrefixOf rest = true
        · rw [if_pos c4] at h
          rw [if_pos c4]
          exact setPath_query _ _ q f u h
        · rw [if_neg c4] at h
          rw [if_neg c4]
          exact setPath_query _ _ q f u h

theorem ctl_append (a b : Bytes) :
    stringContainsCTLByte (a ++ b) = (stringContainsCTLByte a || stringContainsCTLByte b) := by
  simp [stringContainsCTLByte, List.any_append]

theorem ctl_cons (c : Byte) (b : Bytes) :
    stringContainsCTLByte (c :: b) = ((c < ch ' ' || c = 127) || stringContainsCTLByte b) := by
  simp [stringContainsCTLByte]

theorem getLast?_mem (s : Bytes) (x : Byte) (h : s.getLast? = some x) : x ∈ s := by
  exact List.mem_of_getLast?_eq_some h

/-- The general branch of `parse` on a text followed by `?` and a query: when
the text holds no `?`, has the scheme and rest `getScheme` gives and its rest
parses, the text with the query parses to the same URL with the query set. -/
theorem parse_append_query_core (b q sch rest : Bytes) (ub : URL)
    (hctlb : stringContainsCTLByte b = false)
    (hgs : getScheme b = .ok (sch, rest))
    (hrest : parseRest { Scheme := toLowerASCII sch } rest = .ok ub)
    (hq : ch '?' ∉ b) (hqq : ch '?' ∉ q) (hctl : stringContainsCTLByte q = false) :
    parse (b ++ ch '?' :: q)
      = .ok { ub with RawQuery := q, ForceQuery := decide (q = []) } := by
  have hsch : getScheme (b ++ ch '?' :: q) = .ok (sch, rest ++ ch '?' :: q)
      ∧ ch '?' ∉ rest := by
    unfold getScheme at hgs ⊢
    rw [getSchemeLoop_append b (b ++ ch '?' :: q) q b [], hgs]
    rcases getSchemeLoop_ok b b [] sch rest hgs with ⟨h1, h2⟩ | ⟨h1, h2, -⟩
    · subst h1 h2
      exact ⟨by simp, hq⟩
    · exact ⟨by simp [h1], fun h => hq (h2 _ h)⟩
  obtain ⟨hsch, hqr⟩ := hsch
  have hctl' : stringContainsCTLByte (b ++ ch '?' :: q) = false := by
    rw [ctl_append, ctl_cons, hctlb, hctl]
    decide
  have hne : b ++ ch '?' :: q ≠ str "*" := by
    intro h
    have : ch '?' ∈ b ++ ch '?' :: q := by simp
    rw [h] at this
    revert this
    decide
  unfold parse
  rw [hctl', hsch]
  simp only [Bool.false_eq_true, if_false, hne]
  by_cases hqe : q = []
  · subst hqe
    have hlast : (rest ++ [ch '?']).getLast? = some (ch '?') := by simp
    have hcount : (rest ++ [ch '?']).count (ch '?') = 1 := by
      simp [List.count_append, List.count_eq_zero_of_not_mem hqr]
    rw [if_pos ⟨hlast, hcount⟩]
    simp only [List.dropLast_concat]
    exact parseRest_query _ rest [] true ub hrest
  · have hlast : ¬ ((rest ++ ch '?' :: q).getLast? = some (ch '?')
        ∧ (rest ++ ch '?' :: q).count (ch '?') = 1) := by
      rintro ⟨h, -⟩
      have h2 : (rest ++ ch '?' :: q).getLast? = q.getLast? := by
        rw [List.getLast?_append]
        cases hq2 : q.getLast? with
        | none => exact absurd (List.getLast?_eq_none_iff.mp hq2) hqe
        | some x => simp [List.getLast?_cons, hq2]
      rw [h2] at h
      exact hqq (getLast?_mem q _ h)
    rw [if_neg hlast]
    simp only [cut_append (ch '?') rest q hqr, hqe, decide_False]
    exact parseRest_query _ rest q false ub hrest

theorem parse_of_no_query (b : Bytes) (ub : URL) (hb : parse b = .ok ub) (hq : ch '?' ∉ b)
    (hstar : b ≠ str "*") :
    stringContainsCTLByte b = false
      ∧ ∃ sch rest, getScheme b = .ok (sch, rest)
          ∧ parseRest { Scheme := toLowerASCII sch } rest = .ok ub := by
  unfold parse at hb
  cases hc : stringContainsCTLByte b with
  | true => simp [hc] at hb
  | false =>
    refine ⟨rfl, ?_⟩
    simp only [hc, Bool.false_eq_true, if_false, hstar] at hb
    cases hgs : getScheme b with
    | error e => simp [hgs] at hb
    | ok r =>
      obtain ⟨sch, rest⟩ := r
      refine ⟨sch, rest, rfl, ?_⟩
      simp only [hgs] at hb
      have hqr : ch '?' ∉ rest := by
        unfold getScheme at hgs
        rcases getSchemeLoop_ok b b [] sch rest hgs with ⟨-, h2⟩ | ⟨-, h2, -⟩
        · subst h2; exact hq
        · exact fun h => hq (h2 _ h)
      have hlast : ¬ (rest.getLast? = some (ch '?') ∧ rest.count (ch '?') = 1) := by
        rintro ⟨h, -⟩
        exact hqr (getLast?_mem rest _ h)
      rw [if_neg hlast] at hb
      simp only [cut_not_mem _ _ hqr] at hb
      exact hb

/-- Appending `?` and a query to a text that parses as a URL and holds no `?`
and no `#`: the result parses to the same URL with the query set (an empty query
sets `ForceQuery`). -/
theorem Parse_append_query (b q : Bytes) (ub : URL) (hb : Parse b = .ok ub)
    (hq : ch '?' ∉ b) (hh : ch '#' ∉ b) (hstar : b ≠ str "*")
    (hqq : ch '?' ∉ q) (hqh : ch '#' ∉ q) (hctl : stringContainsCTLByte q = false) :
    Parse (b ++ ch '?' :: q) = .ok { ub with RawQuery := q, ForceQuery := decide (q = []) } := by
  have hpb : parse b = .ok ub := by
    unfold Parse at hb
    simp only [cut_not_mem _ _ hh] at hb
    cases hp : parse b with
    | error e => simp [hp] at hb
    | ok url => simpa [hp] using hb
  obtain ⟨hctlb, sch, rest, hgs, hrest⟩ := parse_of_no_query b ub hpb hq hstar
  have hh' : ch '#' ∉ b ++ ch '?' :: q := by
    intro h
    rcases List.mem_append.mp h with h | h
    · exact hh h
    · rcases List.mem_cons.mp h with h | h
      · revert h; decide
      · exact hqh h
  unfold Parse
  simp only [cut_not_mem _ _ hh']
  rw [parse_append_query_core b q sch rest ub hctlb hgs hrest hq hqq hctl]
  simp

/-- The same for the text `*`, which `parse` treats apart: with a query after it
the star is an ordinary path. -/
theorem Parse_star_query (q : Bytes) (hqq : ch '?' ∉ q) (hqh : ch '#' ∉ q)
    (hctl : stringContainsCTLByte q = false) :
    Parse (str "*" ++ ch '?' :: q)
      = .ok { Path := str "*", RawPath := str "*", RawQuery := q,
              ForceQuery := decide (q = []) } := by
  have hh' : ch '#' ∉ str "*" ++ ch '?' :: q := by
    intro h
    rcases List.mem_append.mp h with h | h
    · revert h; decide
    · rcases List.mem_cons.mp h with h | h
      · revert h; decide
      · exact hqh h
  unfold Parse
  simp only [cut_not_mem _ _ hh']
  rw [parse_append_query_core (str "*") q [] (str "*")
    { Path := str "*", RawPath := str "*" } (by decide) (by decide) (by decide) (by decide)
    hqq hctl]
  simp

/-! ### The text of a URL without query and fragment holds no `?` and no `#` -/

theorem noDelim_nil : noDelim [] := by
  simp [noDelim]

theorem noDelim_append (a b : Bytes) (ha : noDelim a) (hb : noDelim b) : noDelim (a ++ b) := by
  unfold noDelim at *
  simp only [List.mem_append, not_or]
  exact ⟨⟨ha.1, hb.1⟩, ⟨ha.2, hb.2⟩⟩

theorem noDelim_cons (c : Byte) (b : Bytes) (hc : c ≠ ch '?' ∧ c ≠ ch '#') (hb : noDelim b) :
    noDelim (c :: b) := by
  unfold noDelim at *
  simp only [List.mem_cons, not_or]
  exact ⟨⟨fun h => hc.1 h.symm, hb.1⟩, ⟨fun h => hc.2 h.symm, hb.2⟩⟩

theorem noDelim_of_forall (s : Bytes) (h : ∀ b ∈ s, b ≠ ch '?' ∧ b ≠ ch '#') : noDelim s :=
  ⟨fun hm => (h _ hm).1 rfl, fun hm => (h _ hm).2 rfl⟩

theorem noDelim_subset (s t : Bytes) (h : ∀ b ∈ s, b ∈ t) (ht : noDelim t) : noDelim s :=
  ⟨fun hm => ht.1 (h _ hm), fun hm => ht.2 (h _ hm)⟩

theorem upperhex_noDelim : ∀ c : Byte,
    (upperhex (c / 16) ≠ ch '?' ∧ upperhex (c / 16) ≠ ch '#')
      ∧ (upperhex (c % 16) ≠ ch '?' ∧ upperhex (c % 16) ≠ ch '#') := by
  intro c
  obtain ⟨h1, h2⟩ := upperhex_querySafe c
  exact ⟨⟨h1.2.2.2.1, h1.2.2.1⟩, ⟨h2.2.2.2.1, h2.2.2.1⟩⟩

/-- In a mode that escapes `?` and `#`, `escape` writes neither. -/
theorem escape_noDelim (s : Bytes) (mode : Encoding)
    (hq : shouldEscape (ch '?') mode = true) (hh : shouldEscape (ch '#') mode = true) :
    noDelim (escape s mode) := by
  apply noDelim_of_forall
  intro b hb
  simp only [escape, List.mem_flatMap] at hb
  obtain ⟨c, -, hc⟩ := hb
  unfold escapeByte at hc
  split_ifs at hc with h1 h2
  · simp only [List.mem_singleton] at hc
    subst hc
    decide
  · simp only [List.mem_cons, List.mem_singleton, List.not_mem_nil, or_false] at hc
    rcases hc with hc | hc | hc
    · subst hc; decide
    · subst hc; exact (upperhex_noDelim c).1
    · subst hc; exact (upperhex_noDelim c).2
  · simp only [List.mem_singleton] at hc
    subst hc
    constructor
    · intro h; rw [h] at h2; exact h2 hq
    · intro h; rw [h] at h2; exact h2 hh

theorem validEncoded_noDelim (s : Bytes) (mode : Encoding)
    (hq : shouldEscape (ch '?') mode = true) (hh : shouldEscape (ch '#') mode = true)
    (hv : validEncoded s mode = true) : noDelim s := by
  apply noDelim_of_forall
  intro b hb
  unfold validEncoded at hv
  rw [List.all_eq_true] at hv
  have hb' := hv b hb
  constructor
  · intro h
    rw [h, hq] at hb'
    revert hb'
    decide
  · intro h
    rw [h, hh] at hb'
    revert hb'
    decide

theorem EscapedPath_noDelim (u : URL) : noDelim u.EscapedPath := by
  unfold URL.EscapedPath
  split_ifs with h1 h2
  · exact validEncoded_noDelim _ _ (by decide) (by decide) h1.2.1
  · unfold noDelim; decide
  · exact escape_noDelim _ _ (by decide) (by decide)

theorem Userinfo_String_noDelim (ui : Userinfo) : noDelim ui.String := by
  unfold Userinfo.String
  apply noDelim_append
  · exact escape_noDelim _ _ (by decide) (by decide)
  · split_ifs
    · exact noDelim_cons _ _ (by decide) (escape_noDelim _ _ (by decide) (by decide))
    · exact noDelim_nil

theorem noDelim_ite (c : Prop) [Decidable c] (a b : Bytes) (ha : noDelim a) (hb : noDelim b) :
    noDelim (if c then a else b) := by
  split_ifs <;> assumption

theorem hierPart_noDelim (u : URL) (buf : Bytes) (h : noDelim buf) : noDelim (u.hierPart buf) := by
  have hslash2 : noDelim (str "//") := by unfold noDelim; decide
  have hslash : noDelim (str "/") := by unfold noDelim; decide
  have hdot : noDelim (str "./") := by unfold noDelim; decide
  have hat : noDelim (str "@") := by unfold noDelim; decide
  have hE := EscapedPath_noDelim u
  have hH : noDelim (escape u.Host encodeHost) := escape_noDelim _ _ (by decide) (by decide)
  unfold URL.hierPart
  simp only []
  cases hu : u.User with
  | none =>
    simp only []
    repeat' first
      | exact h | exact hE | exact hH | exact hslash2 | exact hslash | exact hdot
      | exact noDelim_nil | apply noDelim_ite | apply noDelim_append
  | some ui =>
    have hU := Userinfo_String_noDelim ui
    simp only []
    repeat' first
      | exact h | exact hE | exact hH | exact hslash2 | exact hslash | exact hdot | exact hat
      | exact hU | exact noDelim_nil | apply noDelim_ite | apply noDelim_append

/-- The text `String` writes for a URL without query and fragment, whose scheme
and opaque part hold no `?` and no `#`, holds neither. -/
theorem String_noDelim (u : URL) (hs : noDelim u.Scheme) (ho : noDelim u.Opaque)
    (hq : u.RawQuery = []) (hf : u.ForceQuery = false) (hfr : u.Fragment = []) :
    noDelim u.String := by
  have hcolon : noDelim (str ":") := by unfold noDelim; decide
  have hbuf0 : noDelim (if u.Scheme ≠ [] then u.Scheme ++ str ":" else []) :=
    noDelim_ite _ _ _ (noDelim_append _ _ hs hcolon) noDelim_nil
  unfold URL.String
  simp only [hq, hf, hfr, ne_eq, not_true_eq_false, Bool.false_eq_true, or_self, if_false]
  apply noDelim_ite
  · exact noDelim_append _ _ hbuf0 ho
  · exact hierPart_noDelim u _ hbuf0

theorem setPath_fields (url : URL) (p : Bytes) (u : URL) (h : URL.setPath url p = .ok u) :
    u.Scheme = url.Scheme ∧ u.Opaque = url.Opaque := by
  unfold URL.setPath at h
  cases hp : unescape p encodePath with
  | error e => rw [hp] at h; cases h
  | ok path =>
    rw [hp] at h
    simp only [Except.ok.injEq] at h
    subst h
    exact ⟨rfl, rfl⟩

theorem setFragment_fields (url : URL) (f : Bytes) (u : URL)
    (h : URL.setFragment url f = .ok u) :
    u.Scheme = url.Scheme ∧ u.Opaque = url.Opaque := by
  unfold URL.setFragment at h
  cases hp : unescape f encodeFragment with
  | error e => rw [hp] at h; cases h
  | ok frag =>
    rw [hp] at h
    simp only [Except.ok.injEq] at h
    subst h
    exact ⟨rfl, rfl⟩

theorem parseRest_fields (url : URL) (rest : Bytes) (u : URL)
    (h : parseRest url rest = .ok u) :
    u.Scheme = url.Scheme ∧ (u.Opaque = url.Opaque ∨ u.Opaque = rest) := by
  unfold parseRest at h
  by_cases c1 : (!(str "/").isPrefixOf rest) = true ∧ url.Scheme ≠ []
  · rw [if_pos c1] at h
    simp only [Except.ok.injEq] at h
    subst h
    exact ⟨rfl, Or.inr rfl⟩
  · rw [if_neg c1] at h
    by_cases c2 : (!(str "/").isPrefixOf rest) = true ∧ ch ':' ∈ (cut (ch '/') rest).1
    · rw [if_pos c2] at h
      cases h
    · rw [if_neg c2] at h
      by_cases c3 : (url.Scheme ≠ [] ∨ (!(str "///").isPrefixOf rest) = true)
          ∧ (str "//").isPrefixOf rest = true
      · rw [if_pos c3] at h
        simp only [] at h
        split at h
        · cases h
        · have := setPath_fields _ _ _ h
          exact ⟨this.1, Or.inl this.2⟩
      · rw [if_neg c3] at h
        by_cases c4 : url.Scheme ≠ [] ∧ (str "/").isPrefixOf rest = true
        · rw [if_pos c4] at h
          have := setPath_fields _ _ _ h
          exact ⟨this.1, Or.inl this.2⟩
        · rw [if_neg c4] at h
          have := setPath_fields _ _ _ h
          exact ⟨this.1, Or.inl this.2⟩

theorem schemeChar_lower : ∀ c : Byte,
    (isAlpha c || isDigit c || c = ch '+' || c = ch '-' || c = ch '.') = true →
      (if ch 'A' ≤ c ∧ c ≤ ch 'Z' then c + 32 else c) ≠ ch '?'
        ∧ (if ch 'A' ≤ c ∧ c ≤ ch 'Z' then c + 32 else c) ≠ ch '#' :=
  byte_forall _ (by decide!)

theorem dropLast_not_mem (s : Bytes) (x : Byte) (hl : s.getLast? = some x)
    (hc : s.count x = 1) : x ∉ s.dropLast := by
  have hs : s = s.dropLast ++ [x] := by
    have := List.dropLast_append_getLast? x hl
    exact this.symm
  have hcount : (s.dropLast ++ [x]).count x = 1 := by rw [← hs]; exact hc
  simp only [List.count_append, List.count_singleton_self] at hcount
  exact List.count_eq_zero.mp (by omega)

/-- The scheme and the opaque part `parse` gives hold no `?` and no `#`. -/
theorem parse_noDelim (s : Bytes) (u : URL) (h : parse s = .ok u) (hh : ch '#' ∉ s) :
    noDelim u.Scheme ∧ noDelim u.Opaque := by
  unfold parse at h
  split_ifs at h with h1 h2
  · simp only [Except.ok.injEq] at h
    subst h
    exact ⟨noDelim_nil, noDelim_nil⟩
  · cases hgs : getScheme s with
    | error e => simp [hgs] at h
    | ok r =>
      obtain ⟨sch, rest⟩ := r
      simp only [hgs] at h
      have hsr : (∀ b ∈ sch,
          (isAlpha b || isDigit b || b = ch '+' || b = ch '-' || b = ch '.') = true)
          ∧ ∀ b ∈ rest, b ∈ s := by
        unfold getScheme at hgs
        rcases getSchemeLoop_ok s s [] sch rest hgs with ⟨h1, h2⟩ | ⟨-, h2, h3⟩
        · subst h1 h2
          exact ⟨fun b hb => absurd hb (List.not_mem_nil b), fun b hb => hb⟩
        · refine ⟨fun b hb => ?_, h2⟩
          rcases h3 b hb with h | h
          · exact absurd h (List.not_mem_nil b)
          · exact h
      have hscheme : noDelim (toLowerASCII sch) := by
        apply noDelim_of_forall
        intro b hb
        simp only [toLowerASCII, List.mem_map] at hb
        obtain ⟨c, hc, rfl⟩ := hb
        exact schemeChar_lower c (hsr.1 c hc)
      have hrest : ch '#' ∉ rest := fun hm => hh (hsr.2 _ hm)
      split_ifs at h with h3
      · obtain ⟨e1, e2⟩ := parseRest_fields _ _ _ h
        refine ⟨e1 ▸ hscheme, ?_⟩
        rcases e2 with e2 | e2
        · rw [e2]; exact noDelim_nil
        · rw [e2]
          exact ⟨dropLast_not_mem rest _ h3.1 h3.2,
            fun hm => hrest (List.mem_of_mem_dropLast hm)⟩
      · obtain ⟨e1, e2⟩ := parseRest_fields _ _ _ h
        refine ⟨e1 ▸ hscheme, ?_⟩
        rcases e2 with e2 | e2
        · rw [e2]; exact noDelim_nil
        · rw [e2]
          exact ⟨cut_fst_not_mem _ _, fun hm => hrest (cut_fst_subset _ _ _ hm)⟩

/-- The scheme and the opaque part `Parse` gives hold no `?` and no `#`. -/
theorem Parse_noDelim (s : Bytes) (u : URL) (h : Parse s = .ok u) :
    noDelim u.Scheme ∧ noDelim u.Opaque := by
  unfold Parse at h
  simp only [] at h
  cases hp : parse (cut (ch '#') s).1 with
  | error e => simp [hp] at h
  | ok url =>
    have hurl := parse_noDelim _ url hp (cut_fst_not_mem _ _)
    simp only [hp] at h
    split_ifs at h
    · simp only [Except.ok.injEq] at h
      subst h
      exact hurl
    · cases hf : url.setFragment (cut (ch '#') s).2.1 with
      | error e => simp [hf] at h
      | ok u' =>
        simp only [hf, Except.ok.injEq] at h
        subst h
        obtain ⟨e1, e2⟩ := setFragment_fields _ _ _ hf
        rw [e1, e2]
        exact hurl

/-! ### The request of `m.get` -/

theorem NewRequest_ok (url : Bytes) (u : URL) (h : Parse url = .ok u) :
    NewRequest (str "GET") url
      = .ok { Method := str "GET", URL := { u with Host := removeEmptyPort u.Host },
              Host := removeEmptyPort u.Host } := by
  unfold NewRequest
  have h1 : (str "GET" = ([] : Bytes)) = False := by decide
  have h2 : validMethod (str "GET") = true := by decide
  simp only [h1, if_false, h2, Bool.not_true, Bool.false_eq_true, h]

theorem calls_afterGet (x : Extern) (g : GetResult) :
    calls (afterGet x g).trace = calls g.trace := by
  obtain ⟨resp, err, trace⟩ := g
  cases err with
  | some e => simp [afterGet, calls]
  | none =>
    cases resp with
    | none => simp [afterGet, calls]
    | some r =>
      by_cases hs : r.StatusCode = 200
      · simp [afterGet, calls, hs]
      · simp [afterGet, calls, hs]

/-- The request `m.get` builds when the joined text parses to a URL `u` without
query and fragment whose text `u.String` parses again, to `ub`: one request, a
`GET` with the URL `ub` and the encoded query `q` of the call (the text `*`
alone is an ordinary path once a query follows it, which sets the raw path),
with the header of the private key and the caller's context. -/
theorem get_request (x : Extern) (m : API) (ctx : Context) (path : Bytes)
    (query : List (Bytes × Bytes)) (u ub : URL) (q : Bytes)
    (hparse : Parse (x.BuildPath m.Config.API.Prefix path) = .ok u)
    (hquery : u.RawQuery = [] ∧ u.ForceQuery = false) (hfrag : u.Fragment = [])
    (hbase : Parse u.String = .ok ub)
    (hq : (query.foldl (fun vs kv => vs.Set kv.1 kv.2) u.Query).Encode = q)
    (hqq : ch '?' ∉ q) (hqh : ch '#' ∉ q) (hctl : stringContainsCTLByte q = false) :
    (m.get x ctx path query).trace
      = [.Do { Method := str "GET"
               URL := { ub with
                 Host := removeEmptyPort ub.Host
                 RawPath := if u.String = str "*" then str "*" else ub.RawPath
                 RawQuery := q
                 ForceQuery := decide (q = []) }
               Host := removeEmptyPort ub.Host
               Authorization := some (str "Basic " ++ basicAuth m.Config.Cloud.PrivateKey [])
               ctx := ctx }] := by
  have hnd := Parse_noDelim _ u hparse
  have hs := String_noDelim u hnd.1 hnd.2 hquery.1 hquery.2 hfrag
  have hone : str "?" = [ch '?'] := by decide
  have hsurl : u.String ++ str "?"
      ++ (query.foldl (fun vs kv => vs.Set kv.1 kv.2) u.Query).Encode
      = u.String ++ ch '?' :: q := by
    rw [hq, hone]
    simp
  have hP : Parse (u.String ++ ch '?' :: q)
      = .ok { ub with
          RawPath := if u.String = str "*" then str "*" else ub.RawPath
          RawQuery := q
          ForceQuery := decide (q = []) } := by
    by_cases hstar : u.String = str "*"
    · rw [if_pos hstar]
      rw [hstar] at hbase ⊢
      have hub : ub = { Path := str "*" } := by
        have : Parse (str "*") = .ok { Path := str "*" } := by decide
        rw [this] at hbase
        simp only [Except.ok.injEq] at hbase
        exact hbase.symm
      subst hub
      exact Parse_star_query q hqq hqh hctl
    · rw [if_neg hstar]
      exact Parse_append_query u.String q ub hbase hs.1 hs.2 hstar hqq hqh hctl
  have hreq := NewRequest_ok _ _ hP
  rw [← hsurl] at hreq
  simp only [API.get, hparse, hreq]
  rfl

theorem get_parse_error (x : Extern) (m : API) (ctx : Context) (path : Bytes)
    (query : List (Bytes × Bytes)) (e : Bytes × URLError)
    (hparse : Parse (x.BuildPath m.Config.API.Prefix path) = .error e) :
    (m.get x ctx path query).trace = []
      ∧ (m.get x ctx path query).resp = none
      ∧ (m.get x ctx path query).err = some (.url e.1 e.2) := by
  simp only [API.get, hparse]
  simp

theorem urlQuery_props (v : Bytes) :
    ch '?' ∉ str "url=" ++ QueryEscape v ∧ ch '#' ∉ str "url=" ++ QueryEscape v
      ∧ stringContainsCTLByte (str "url=" ++ QueryEscape v) = false
      ∧ str "url=" ++ QueryEscape v ≠ [] := by
  have hsafe := QueryEscape_safe v
  refine ⟨?_, ?_, ?_, ?_⟩
  · intro h
    rcases List.mem_append.mp h with h | h
    · revert h; decide
    · exact (hsafe _ h).2.2.2.1 rfl
  · intro h
    rcases List.mem_append.mp h with h | h
    · revert h; decide
    · exact (hsafe _ h).2.2.1 rfl
  · rw [ctl_append]
    have h1 : stringContainsCTLByte (str "url=") = false := by decide
    have h2 : stringContainsCTLByte (QueryEscape v) = false := by
      unfold stringContainsCTLByte
      rw [List.any_eq_false]
      intro b hb
      have := (hsafe b hb).2.2.2.2.2
      simp only [this, Bool.false_eq_true, not_false_eq_true]
    rw [h1, h2]
    rfl
  · have : str "url=" = ch 'u' :: str "rl=" := by decide
    rw [this]
    simp

/-- C9, as the code has it: for every non-empty `url`, when the configured
prefix joined with `metadata` parses as a URL `u` that carries no query and no
fragment, and the text `URL.String` rebuilds for `u` parses again, to a URL
`ub`, `FromUrl` hands the transport exactly one request: a `GET` to `ub` (an
empty port dropped from the host; the raw path `*` for the text `*`) whose query
string is `url=` followed by the percent-encoding of the caller's string, and
parsing that query string gives back exactly one key, `url`, whose value is the
caller's string unchanged.  The request goes to the joined URL `u` itself when
`ub = u`. -/
theorem C9_from_url_query_round_trip (x : Extern) (m : API) (ctx : Context) (url : Bytes)
    (u ub : URL) (hurl : url ≠ [])
    (hparse : Parse (x.BuildPath m.Config.API.Prefix (str "metadata")) = .ok u)
    (hquery : u.RawQuery = [] ∧ u.ForceQuery = false) (hfrag : u.Fragment = [])
    (hbase : Parse u.String = .ok ub) :
    ∃ req, calls (m.FromUrl x ctx url).trace = [req]
      ∧ req.Method = str "GET"
      ∧ req.URL = { ub with
          Host := removeEmptyPort ub.Host
          RawPath := if u.String = str "*" then str "*" else ub.RawPath
          RawQuery := str "url=" ++ QueryEscape url
          ForceQuery := false }
      ∧ req.Host = removeEmptyPort ub.Host
      ∧ req.URL.RawQuery = str "url=" ++ QueryEscape url
      ∧ req.URL.Query = [(str "url", [url])]
      ∧ QueryUnescape (QueryEscape url) = .ok url := by
  obtain ⟨p1, p2, p3, p4⟩ := urlQuery_props url
  have hq : ([(str "url", url)].foldl (fun vs kv => vs.Set kv.1 kv.2) u.Query).Encode
      = str "url=" ++ QueryEscape url := by
    simp only [List.foldl_cons, List.foldl_nil, URL.Query, hquery.1, ParseQuery_nil]
    exact Encode_url url
  have ht := get_request x m ctx (str "metadata") [(str "url", url)] u ub _ hparse hquery hfrag
    hbase hq p1 p2 p3
  have hd : decide (str "url=" ++ QueryEscape url = []) = false := by simp [p4]
  rw [FromUrl_eq_afterGet x m ctx url hurl, calls_afterGet, ht, hd]
  refine ⟨_, rfl, rfl, rfl, rfl, rfl, ?_, QueryUnescape_QueryEscape url⟩
  unfold URL.Query
  exact ParseQuery_url url

/-- Counterexample to C9 as stated: the prefix `http:/%2Fx y/` carries no query
and no fragment, and joined with `metadata` it parses as a URL; the text
`URL.String` rebuilds for that URL, `http://x%20y/metadata`, has the host
`x%20y`, which `url.Parse` rejects, so `FromUrl` returns that error and hands
the transport no request.  With the prefix `http:/%2Fé/` the joined URL has no
host and the path `//é/metadata`, and the one request goes to the host `é` with
the path `/metadata`. -/
theorem C9_rebuilt_prefix_makes_no_call :
    (Parse (testExtern.BuildPath spacePrefix (str "metadata"))
        = .ok { Scheme := str "http", Path := str "//x y/metadata",
                RawPath := str "/%2Fx y/metadata", OmitHost := true }
      ∧ calls ((prefixAPI spacePrefix (getHandler 200 fixtureBody)).FromUrl testExtern testCtx
          testUrl).trace = []
      ∧ ((prefixAPI spacePrefix (getHandler 200 fixtureBody)).FromUrl testExtern testCtx
          testUrl).err
        = some (.url (str ("http://x%20y/metadata" ++
              "?url=https%3A%2F%2Fik.imagekit.io%2Fxk1m7xkgi%2Fdefault-image.jpg"))
            (.escape (str "%20"))))
    ∧ (Parse (testExtern.BuildPath accentPrefix (str "metadata"))
        = .ok { Scheme := str "http", Path := str "//" ++ [0xC3, 0xA9] ++ str "/metadata",
                RawPath := str "/%2F" ++ [0xC3, 0xA9] ++ str "/metadata", OmitHost := true }
      ∧ (calls ((prefixAPI accentPrefix (getHandler 200 fixtureBody)).FromUrl testExtern testCtx
          testUrl).trace).map (fun r => (r.URL.Host, r.URL.Path))
        = [([0xC3, 0xA9], str "/metadata")]) := by
  refine ⟨⟨?_, ?_, ?_⟩, ?_, ?_⟩ <;> rfl

/-- Witness of C9 as amended: under the test configuration, where the joined
URL is reproduced by its own text, for a `url` with `&`, `=`, `#`, `?`, `%`,
`+`, a space and a non-ASCII character. -/
theorem C9_tricky_url_witness :
    ∃ req, calls ((testAPI (getHandler 200 fixtureBody)).FromUrl testExtern testCtx
          trickyUrl).trace = [req]
      ∧ req.Method = str "GET"
      ∧ req.URL =
          { Scheme := str "http", Host := str "127.0.0.1:8080", Path := str "/metadata",
            RawQuery := str "url=https%3A%2F%2Fa.b%2Fc+d%3Fe%3Df%26g%23h%2B%25%C3%A9" }
      ∧ req.Host = str "127.0.0.1:8080"
      ∧ req.URL.RawQuery = str "url=https%3A%2F%2Fa.b%2Fc+d%3Fe%3Df%26g%23h%2B%25%C3%A9"
      ∧ req.URL.Query = [(str "url", [trickyUrl])]
      ∧ QueryUnescape (QueryEscape trickyUrl) = .ok trickyUrl :=
  C9_from_url_query_round_trip testExtern (testAPI (getHandler 200 fixtureBody)) testCtx
    trickyUrl testMetadataURL testMetadataURL (by decide) rfl ⟨rfl, rfl⟩ rfl rfl

/-- C2, as the code has it: for a non-empty `fileId`, when the configured prefix
joined with `files/{fileId}/metadata` parses as a URL `u` without query and
fragment, and the text `URL.String` rebuilds for `u` parses again, to a URL
`ub`, `FromAsset` hands the transport exactly one request, a `GET` to `ub` (an
empty port dropped from the host; the raw path `*` for the text `*`) with an
empty query after a bare `?`; the request goes to the joined URL `u` itself when
`ub = u`.  When the joined text does not parse as a URL, `FromAsset` returns the
parse error and hands the transport nothing. -/
theorem C2_from_asset_request (x : Extern) (m : API) (ctx : Context) (fileId : Bytes)
    (hid : fileId ≠ []) :
    (∀ u ub,
        Parse (x.BuildPath m.Config.API.Prefix (str "files/" ++ fileId ++ str "/metadata"))
          = .ok u →
        (u.RawQuery = [] ∧ u.ForceQuery = false) → u.Fragment = [] →
        Parse u.String = .ok ub →
        ∃ req, calls (m.FromAsset x ctx fileId).trace = [req]
          ∧ req.Method = str "GET"
          ∧ req.URL = { ub with
              Host := removeEmptyPort ub.Host
              RawPath := if u.String = str "*" then str "*" else ub.RawPath
              RawQuery := []
              ForceQuery := true }
          ∧ req.Host = removeEmptyPort ub.Host)
    ∧ (∀ e,
        Parse (x.BuildPath m.Config.API.Prefix (str "files/" ++ fileId ++ str "/metadata"))
          = .error e →
        calls (m.FromAsset x ctx fileId).trace = []
          ∧ (m.FromAsset x ctx fileId).err = some (.url e.1 e.2)
          ∧ (m.FromAsset x ctx fileId).response = some ⟨{}, {}⟩) := by
  constructor
  · intro u ub hparse hquery hfrag hbase
    have hq : (([] : List (Bytes × Bytes)).foldl (fun vs kv => vs.Set kv.1 kv.2) u.Query).Encode
        = [] := by
      simp only [List.foldl_nil, URL.Query, hquery.1, ParseQuery_nil, Encode_nil]
    have ht := get_request x m ctx _ [] u ub [] hparse hquery hfrag hbase hq
        (List.not_mem_nil _) (List.not_mem_nil _) rfl
    rw [FromAsset_eq_afterGet x m ctx fileId hid, calls_afterGet, ht]
    exact ⟨_, rfl, rfl, rfl, rfl⟩
  · intro e hparse
    obtain ⟨h1, h2, h3⟩ := get_parse_error x m ctx _ [] e hparse
    rw [FromAsset_eq_afterGet x m ctx fileId hid]
    refine ⟨?_, ?_, ?_⟩
    · rw [calls_afterGet, h1]
      rfl
    · unfold afterGet
      rw [h3]
    · unfold afterGet
      rw [h3, h2]
      rfl

/-- Counterexample to C2 as stated: a `fileId` that holds a control character
makes `url.Parse` fail, so the transport is not called at all; a `fileId` that
holds `?` ends the path there, the request goes to the path `/files/a`, not to
`/files/a?b/metadata`. -/
theorem C2_control_character_makes_no_call :
    (calls ((testAPI (getHandler 200 fixtureBody)).FromAsset testExtern testCtx
        controlFileId).trace = []
      ∧ ((testAPI (getHandler 200 fixtureBody)).FromAsset testExtern testCtx controlFileId).err
        = some (.url (testPrefix ++ str "files/" ++ controlFileId ++ str "/metadata")
            .controlCharacter))
    ∧ (calls ((testAPI (getHandler 200 fixtureBody)).FromAsset testExtern testCtx
        queryFileId).trace).map (fun r => (r.URL.Path, r.URL.RawQuery))
        = [(str "/files/a", str "b/metadata?b%2Fmetadata=")] := by
  refine ⟨⟨?_, ?_⟩, ?_⟩ <;> rfl

/-- Witness of C2 as amended: the call of `TestMetadata_FromFile`, where the
joined URL is reproduced by its own text. -/
theorem C2_test_file_witness :
    ∃ req, calls ((testAPI (getHandler 200 fixtureBody)).FromAsset testExtern testCtx
          testFileId).trace = [req]
      ∧ req.Method = str "GET"
      ∧ req.URL =
          { Scheme := str "http", Host := str "127.0.0.1:8080",
            Path := str "/files/3325344545345/metadata", ForceQuery := true }
      ∧ req.Host = str "127.0.0.1:8080" :=
  (C2_from_asset_request testExtern (testAPI (getHandler 200 fixtureBody)) testCtx testFileId
    (by decide)).1 testAssetURL testAssetURL rfl ⟨rfl, rfl⟩ rfl rfl

/-- The request URL is the URL the rebuilt text parses to, which need not be the
joined URL: for the `fileId` `a%2Fb c` the joined URL keeps the raw path
`/files/a%2Fb c/metadata` and the request is made for `/files/a/b%20c/metadata`
(the same path, no raw path); under the prefix `http:/%2Fé/` the joined URL
has no host and the path `//é/files/1/metadata`, and the request goes to the
host `é` with the path `/files/1/metadata`. -/
theorem FromAsset_rebuilt_url_examples :
    (Parse (testExtern.BuildPath testPrefix (str "files/" ++ escapedFileId ++ str "/metadata"))
        = .ok { Scheme := str "http", Host := str "127.0.0.1:8080",
                Path := str "/files/a/b c/metadata", RawPath := str "/files/a%2Fb c/metadata" }
      ∧ (calls ((testAPI (getHandler 200 fixtureBody)).FromAsset testExtern testCtx
          escapedFileId).trace).map (fun r => (r.URL.Path, r.URL.RawPath, r.URL.EscapedPath))
        = [(str "/files/a/b c/metadata", [], str "/files/a/b%20c/metadata")])
    ∧ (Parse (testExtern.BuildPath accentPrefix (str "files/" ++ oneFileId ++ str "/metadata"))
        = .ok { Scheme := str "http",
                Path := str "//" ++ [0xC3, 0xA9] ++ str "/files/1/metadata",
                RawPath := str "/%2F" ++ [0xC3, 0xA9] ++ str "/files/1/metadata",
                OmitHost := true }
      ∧ (calls ((prefixAPI accentPrefix (getHandler 200 fixtureBody)).FromAsset testExtern
          testCtx oneFileId).trace).map (fun r => (r.URL.Host, r.URL.Path))
        = [([0xC3, 0xA9], str "/files/1/metadata")]) := by
  refine ⟨⟨?_, ?_⟩, ?_, ?_⟩ <;> rfl

/-! ### The `Authorization` header -/

theorem b64_facts : ∀ n, n < 64 →
    b64val (b64char n) = some n ∧ b64char n ≠ ch '=' ∧ b64char n ≠ 13 ∧ b64char n ≠ 10 := by
  decide!

theorem decodeQuanta_encode (s : Bytes) : decodeQuanta (base64Encode s) = some s := by
  induction s using base64Encode.induct with
  | case1 a b c rest ih =>
    have ha := a.isLt
    have hb := b.isLt
    have hc := c.isLt
    obtain ⟨val, hval⟩ : ∃ v, v = a.val * 65536 + b.val * 256 + c.val := ⟨_, rfl⟩
    have h0 := b64_facts (val / 262144 % 64) (Nat.mod_lt _ (by norm_num))
    have h1 := b64_facts (val / 4096 % 64) (Nat.mod_lt _ (by norm_num))
    have h2 := b64_facts (val / 64 % 64) (Nat.mod_lt _ (by norm_num))
    have h3 := b64_facts (val % 64) (Nat.mod_lt _ (by norm_num))
    have hv : val / 262144 % 64 * 262144 + val / 4096 % 64 * 4096 + val / 64 % 64 * 64 + val % 64
        = val := by omega
    have e1 : (Fin.ofNat (val / 65536) : Byte) = a := by
      apply Fin.ext; show val / 65536 % 256 = a.val; omega
    have e2 : (Fin.ofNat (val / 256) : Byte) = b := by
      apply Fin.ext; show val / 256 % 256 = b.val; omega
    have e3 : (Fin.ofNat val : Byte) = c := by
      apply Fin.ext; show val % 256 = c.val; omega
    simp only [base64Encode, decodeQuanta, ← hval, h0.1, h1.1, h2.1, h3.1, h2.2.1, h3.2.1,
      if_false, ih, Option.map_some', hv, e1, e2, e3]
  | case2 a b =>
    have ha := a.isLt
    have hb := b.isLt
    obtain ⟨val, hval⟩ : ∃ v, v = a.val * 65536 + b.val * 256 := ⟨_, rfl⟩
    have h0 := b64_facts (val / 262144 % 64) (Nat.mod_lt _ (by norm_num))
    have h1 := b64_facts (val / 4096 % 64) (Nat.mod_lt _ (by norm_num))
    have h2 := b64_facts (val / 64 % 64) (Nat.mod_lt _ (by norm_num))
    have hv : val / 262144 % 64 * 262144 + val / 4096 % 64 * 4096 + val / 64 % 64 * 64
        = val := by omega
    have e1 : (Fin.ofNat (val / 65536) : Byte) = a := by
      apply Fin.ext; show val / 65536 % 256 = a.val; omega
    have e2 : (Fin.ofNat (val / 256) : Byte) = b := by
      apply Fin.ext; show val / 256 % 256 = b.val; omega
    simp only [base64Encode, decodeQuanta, ← hval, h0.1, h1.1, h2.1, h2.2.1,
      if_false, if_true, hv, e1, e2]
  | case3 a =>
    have ha := a.isLt
    obtain ⟨val, hval⟩ : ∃ v, v = a.val * 65536 := ⟨_, rfl⟩
    have h0 := b64_facts (val / 262144 % 64) (Nat.mod_lt _ (by norm_num))
    have h1 := b64_facts (val / 4096 % 64) (Nat.mod_lt _ (by norm_num))
    have hv : val / 262144 % 64 * 262144 + val / 4096 % 64 * 4096 = val := by omega
    have e1 : (Fin.ofNat (val / 65536) : Byte) = a := by
      apply Fin.ext; show val / 65536 % 256 = a.val; omega
    simp only [base64Encode, decodeQuanta, ← hval, h0.1, h1.1, if_true, and_self, hv, e1]
  | case4 => rfl

theorem base64Encode_no_newline (s : Bytes) : ∀ c ∈ base64Encode s, c ≠ 13 ∧ c ≠ 10 := by
  have hpad : ch '=' ≠ (13 : Byte) ∧ ch '=' ≠ (10 : Byte) := by decide
  induction s using base64Encode.induct with
  | case1 a b c rest ih =>
    intro d hd
    simp only [base64Encode, List.mem_cons] at hd
    rcases hd with h | h | h | h | h
    · rw [h]; exact (b64_facts _ (Nat.mod_lt _ (by norm_num))).2.2
    · rw [h]; exact (b64_facts _ (Nat.mod_lt _ (by norm_num))).2.2
    · rw [h]; exact (b64_facts _ (Nat.mod_lt _ (by norm_num))).2.2
    · rw [h]; exact (b64_facts _ (Nat.mod_lt _ (by norm_num))).2.2
    · exact ih d h
  | case2 a b =>
    intro d hd
    simp only [base64Encode, List.mem_cons, List.mem_nil_iff, or_false] at hd
    rcases hd with h | h | h | h
    · rw [h]; exact (b64_facts _ (Nat.mod_lt _ (by norm_num))).2.2
    · rw [h]; exact (b64_facts _ (Nat.mod_lt _ (by norm_num))).2.2
    · rw [h]; exact (b64_facts _ (Nat.mod_lt _ (by norm_num))).2.2
    · rw [h]; exact hpad
  | case3 a =>
    intro d hd
    simp only [base64Encode, List.mem_cons, List.mem_nil_iff, or_false] at hd
    rcases hd with h | h | h | h
    · rw [h]; exact (b64_facts _ (Nat.mod_lt _ (by norm_num))).2.2
    · rw [h]; exact (b64_facts _ (Nat.mod_lt _ (by norm_num))).2.2
    · rw [h]; exact hpad
    · rw [h]; exact hpad
  | case4 => intro d hd; cases hd

/-- Decoding undoes encoding: `DecodeString(EncodeToString(s)) = s`. -/
theorem base64Decode_encode (s : Bytes) : base64Decode (base64Encode s) = some s := by
  unfold base64Decode
  rw [List.filter_eq_self.mpr, decodeQuanta_encode]
  intro c hc
  have := base64Encode_no_newline s c hc
  simp [this.1, this.2]

theorem cut_mem (sep : Byte) (s : Bytes) (h : sep ∈ s) : (cut sep s).2.2 = true := by
  induction s with
  | nil => cases h
  | cons c rest ih =>
    unfold cut
    by_cases hc : c = sep
    · simp [hc]
    · simp only [hc, if_false]
      rcases List.mem_cons.mp h with e | e
      · exact absurd e.symm hc
      · exact ih e

/-- The credentials `parseBasicAuth` reads back from the header `SetBasicAuth`
writes: the text `username:password` cut at its first colon. -/
theorem parseBasicAuth_basic (username password : Bytes) :
    parseBasicAuth (str "Basic " ++ basicAuth username password)
      = some ((cut (ch ':') (username ++ str ":" ++ password)).1,
          (cut (ch ':') (username ++ str ":" ++ password)).2.1) := by
  have hlen : ¬ ((str "Basic " ++ basicAuth username password).length < 6) := by
    simp [str]
  have htake : (str "Basic " ++ basicAuth username password).take 6 = str "Basic " := by
    rw [List.take_append_of_le_length (by decide)]
    rfl
  have hdrop : (str "Basic " ++ basicAuth username password).drop 6
      = basicAuth username password := by
    rw [List.drop_append_of_le_length (by decide)]
    rfl
  have hcut : (cut (ch ':') (username ++ str ":" ++ password)).2.2 = true := by
    apply cut_mem
    have : str ":" = [ch ':'] := by decide
    rw [this]
    simp
  unfold parseBasicAuth
  simp only [hlen, htake, hdrop, ne_eq, not_true_eq_false, or_self, if_false]
  unfold basicAuth
  rw [base64Decode_encode]
  simp only [hcut, if_true]

/-- What `(*Request).BasicAuth` reads from a request that carries the header
`SetBasicAuth(key, "")` writes: the user name is the key up to its first colon;
it is the key, with the empty password, exactly when the key holds no colon. -/
theorem BasicAuth_of_header (req : Request) (key : Bytes)
    (h : req.Authorization = some (str "Basic " ++ basicAuth key [])) :
    req.BasicAuth = some ((cut (ch ':') (key ++ str ":")).1, (cut (ch ':') (key ++ str ":")).2.1)
      ∧ (req.BasicAuth = some (key, []) ↔ ch ':' ∉ key) := by
  have hne : str "Basic " ++ basicAuth key [] ≠ [] := by
    have : str "Basic " = ch 'B' :: str "asic " := by decide
    rw [this]
    simp
  have hb : req.BasicAuth
      = some ((cut (ch ':') (key ++ str ":")).1, (cut (ch ':') (key ++ str ":")).2.1) := by
    unfold Request.BasicAuth
    rw [h]
    simp only [hne, if_false]
    rw [parseBasicAuth_basic]
    simp
  refine ⟨hb, ?_⟩
  have hone : str ":" = [ch ':'] := by decide
  constructor
  · intro e hmem
    rw [hb] at e
    simp only [Option.some.injEq, Prod.mk.injEq] at e
    have := cut_fst_not_mem (ch ':') (key ++ str ":")
    rw [e.1] at this
    exact this hmem
  · intro hk
    rw [hb, hone, cut_append _ _ _ hk]

/-- Every request that reaches the transport from `FromAsset` or `FromUrl` was
built by `m.get` for some path and query. -/
theorem do_mem_afterGet (x : Extern) (g : GetResult) (req : Request)
    (h : Event.Do req ∈ (afterGet x g).trace) : Event.Do req ∈ g.trace := by
  obtain ⟨resp, err, trace⟩ := g
  cases err with
  | some e => simpa [afterGet] using h
  | none =>
    cases resp with
    | none => simpa [afterGet] using h
    | some r =>
      by_cases hs : r.StatusCode = 200
      · simpa [afterGet, hs] using h
      · simpa [afterGet, hs] using h

/-- C10, as the code has it: every request `FromAsset` or `FromUrl` passes to
the transport carries the header `Authorization: Basic` followed by the base64
text of the configured private key and a colon, and is bound to the caller's
context; the credentials read back from that header (`Request.BasicAuth`) are
the private key as user name and the empty password exactly when the private
key holds no colon. -/
theorem C10_requests_carry_basic_header_and_context (x : Extern) (m : API) (ctx : Context)
    (arg : Bytes) :
    (∀ req, Event.Do req ∈ (m.FromAsset x ctx arg).trace →
        req.Authorization
          = some (str "Basic " ++ base64Encode (m.Config.Cloud.PrivateKey ++ str ":"))
        ∧ req.ctx = ctx
        ∧ (req.BasicAuth = some (m.Config.Cloud.PrivateKey, [])
            ↔ ch ':' ∉ m.Config.Cloud.PrivateKey))
    ∧ (∀ req, Event.Do req ∈ (m.FromUrl x ctx arg).trace →
        req.Authorization
          = some (str "Basic " ++ base64Encode (m.Config.Cloud.PrivateKey ++ str ":"))
        ∧ req.ctx = ctx
        ∧ (req.BasicAuth = some (m.Config.Cloud.PrivateKey, [])
            ↔ ch ':' ∉ m.Config.Cloud.PrivateKey)) := by
  have hhead : ∀ key : Bytes, basicAuth key [] = base64Encode (key ++ str ":") := by
    intro key
    simp [basicAuth]
  by_cases harg : arg = []
  · subst harg
    simp [API.FromAsset, API.FromUrl]
  · rw [FromAsset_eq_afterGet x m ctx arg harg, FromUrl_eq_afterGet x m ctx arg harg]
    constructor
    · intro req h
      obtain ⟨r, hr, ht⟩ := get_trace_only_do x m ctx _ _ _ (do_mem_afterGet x _ req h)
      cases hr
      have := get_of_do x m ctx _ _ req ht
      exact ⟨hhead _ ▸ this.2.2.2.1, this.2.2.2.2, (BasicAuth_of_header req _ this.2.2.2.1).2⟩
    · intro req h
      obtain ⟨r, hr, ht⟩ := get_trace_only_do x m ctx _ _ _ (do_mem_afterGet x _ req h)
      cases hr
      have := get_of_do x m ctx _ _ req ht
      exact ⟨hhead _ ▸ this.2.2.2.1, this.2.2.2.2, (BasicAuth_of_header req _ this.2.2.2.1).2⟩

/-- Counterexample to C10 as stated: with the private key `priv:key` the
requests of both functions carry the header `Basic cHJpdjprZXk6`, whose
credentials are the user name `priv` and the password `key:`, not the private
key and the empty password. -/
theorem C10_colon_key_reads_back_other_user :
    (calls ((colonAPI (getHandler 200 fixtureBody)).FromAsset testExtern testCtx
        testFileId).trace).map (fun r => (r.Authorization, r.BasicAuth))
      = [(some (str "Basic cHJpdjprZXk6"), some (str "priv", str "key:"))]
    ∧ (calls ((colonAPI (getHandler 200 fixtureBody)).FromUrl testExtern testCtx
        testUrl).trace).map (fun r => (r.Authorization, r.BasicAuth))
      = [(some (str "Basic cHJpdjprZXk6"), some (str "priv", str "key:"))] := by
  constructor <;> rfl

/-- Witness of C10 as amended: the requests of the two test calls reach the
transport with the header of the private key of `test/test.go`, which holds no
colon and is read back as the user name with the empty password, and with the
caller's context. -/
theorem C10_test_requests_witness :
    (Event.Do testAssetRequest
        ∈ ((testAPI (getHandler 200 fixtureBody)).FromAsset testExtern testCtx testFileId).trace
      ∧ testAssetRequest.Authorization
          = some (str "Basic cHJpdmF0ZV9YeFpIK0k4QmZPb0lzWTBNOUNRdFM0bnlOU2s9Og==")
      ∧ testAssetRequest.ctx = testCtx
      ∧ testAssetRequest.BasicAuth = some (testPrivateKey, []))
    ∧ (Event.Do testUrlRequest
        ∈ ((testAPI (getHandler 200 fixtureBody)).FromUrl testExtern testCtx testUrl).trace
      ∧ testUrlRequest.Authorization
          = some (str "Basic cHJpdmF0ZV9YeFpIK0k4QmZPb0lzWTBNOUNRdFM0bnlOU2s9Og==")
      ∧ testUrlRequest.ctx = testCtx
      ∧ testUrlRequest.BasicAuth = some (testPrivateKey, [])) :=
  have ha : Event.Do testAssetRequest
      ∈ ((testAPI (getHandler 200 fixtureBody)).FromAsset testExtern testCtx testFileId).trace :=
    (show ((testAPI (getHandler 200 fixtureBody)).FromAsset testExtern testCtx testFileId).trace
      = [.Do testAssetRequest, .Unmarshal, .DeferredBodyClose] from rfl) ▸ List.mem_cons_self _ _
  have hu : Event.Do testUrlRequest
      ∈ ((testAPI (getHandler 200 fixtureBody)).FromUrl testExtern testCtx testUrl).trace :=
    (show ((testAPI (getHandler 200 fixtureBody)).FromUrl testExtern testCtx testUrl).trace
      = [.Do testUrlRequest, .Unmarshal, .DeferredBodyClose] from rfl) ▸ List.mem_cons_self _ _
  have hk : ch ':' ∉ testPrivateKey := by decide
  have ta := (C10_requests_carry_basic_header_and_context testExtern
      (testAPI (getHandler 200 fixtureBody)) testCtx testFileId).1 _ ha
  have tu := (C10_requests_carry_basic_header_and_context testExtern
      (testAPI (getHandler 200 fixtureBody)) testCtx testUrl).2 _ hu
  ⟨⟨ha, rfl, ta.2.1, ta.2.2.mpr hk⟩, ⟨hu, rfl, tu.2.1, tu.2.2.mpr hk⟩⟩

end Imagekit
